import Mathlib

/-!
# The xv6 file-handle layer (`file.c`)

A shallow embedding of `filealloc`, `filedup`, `fileclose`, `fileread` and
`filewrite` of `file.c`, followed by theorems about them.

Conventions of the embedding.

* A `struct file *` is an address `Nat` into the memory `State.files`; the
  table `ftable.file` occupies the addresses `0 .. NFILE-1`.  A `struct pipe *`
  and a `struct inode *` are addresses into `State.pipes` and `State.inodes`.
  The pointers `ip->read_file` and `ip->write_file` can be null and are
  `Option Nat`.
* The code runs sequentially.  Locks, wakeups and calls into the pipe, inode
  and log layers are recorded, in program order, in `State.trace`.
* C `int` arithmetic is arithmetic on `Int` (signed overflow is undefined in C
  and is not modelled).
* The offset of a handle is a C `uint` of 32 bits: a `Nat` that every update
  reduces modulo `2^32` (`wrap32`).
* A run ends in an `Outcome`: a normal return, a call of `panic`, a write
  through a null pointer, or exhaustion of the loop budget of `filewrite`.
-/

namespace Xv6

/-- Tag of a `struct file`: `enum { FD_NONE, FD_PIPE, FD_INODE, FD_FIFO }`. -/
inductive FdType where
  | FD_NONE
  | FD_PIPE
  | FD_INODE
  | FD_FIFO
  deriving DecidableEq, Repr

/-- Modelled from the spec: `struct file` is declared in `file.h`, which is not
among the sources.  The fields are those `file.c` reads and writes: the tag,
the reference count, the two permission flags, the pipe and inode pointers and
the offset cursor.  The offset is a 32-bit `uint`, as the offset parameter of
`readi` and `writei` (defs.h lines 57 and 59): it is kept as a `Nat`, every
update reduces it modulo `2^32` and it is converted with `wrap32` where it is
passed on. -/
structure file where
  type : FdType
  ref : Int
  readable : Int
  writable : Int
  pipe : Nat
  ip : Nat
  off : Nat
  deriving DecidableEq, Repr

/-- Modelled from the spec: `struct pipe` is declared in `pipe.h`, which is not
among the sources.  Only the two open-endpoint counters are used by `file.c`
(besides the lock and the two wait channels, which appear as events). -/
structure pipe where
  readopen : Int
  writeopen : Int
  deriving DecidableEq, Repr

/-- Modelled from the spec: `struct inode` is declared outside the sources.
Only the two back-references of a FIFO inode are used by `file.c`. -/
structure inode where
  read_file : Option Nat
  write_file : Option Nat
  deriving DecidableEq, Repr

/-- Lock operations, wakeups and collaborator calls made by `file.c`. -/
inductive Event where
  | acquire_ftable
  | release_ftable
  | acquire_pipe (p : Nat)
  | release_pipe (p : Nat)
  | wakeup_nread (p : Nat)
  | wakeup_nwrite (p : Nat)
  | pipeclose (p : Nat) (writable : Int)
  | ilock (ip : Nat)
  | iunlock (ip : Nat)
  | begin_trans
  | commit_trans
  | iput (ip : Nat)
  | piperead (p : Nat) (addr : Int) (n : Int)
  | pipewrite (p : Nat) (addr : Int) (n : Int)
  | readi (ip : Nat) (addr : Int) (off : Nat) (n : Int) (r : Int)
  | writei (ip : Nat) (addr : Int) (off : Nat) (n : Int) (r : Int)
  deriving DecidableEq, Repr

/-- Memory seen by `file.c` and the events issued so far (oldest first). -/
structure State where
  files : Nat → file
  pipes : Nat → pipe
  inodes : Nat → inode
  trace : List Event

/-- Constants of the missing headers (`param.h`, `errno.h`) and the results of
the collaborators.  `writei k ip addr off n` is the result of the `k`-th call
(counted from 0) that one run of `filewrite` makes; `pipeclose p w` is the
effect of the pipe layer's `pipeclose` on the pipe memory. -/
structure Config where
  NFILE : Nat
  LOGSIZE : Int
  EBADF : Int
  EIO_errno : Int
  readi : Nat → Int → Nat → Int → Int
  writei : Nat → Nat → Int → Nat → Int → Int
  piperead : Nat → Int → Int → Int
  pipewrite : Nat → Int → Int → Int
  pipeclose : Nat → Int → (Nat → pipe) → (Nat → pipe)

/-- The five `panic` calls of `file.c`. -/
inductive PanicMsg where
  | filedup
  | fileclose
  | fileread
  | filewrite
  | short_filewrite
  deriving DecidableEq, Repr

/-- How a run ends: `ret v s` is a normal return of `v` in state `s`;
`panic m s` is a call of `panic` reached in state `s`; `nullderef s` is a
store through a null `struct file *` attempted in state `s`; `diverge` means
the loop budget ran out. -/
inductive Outcome (α : Type) where
  | ret (v : α) (s : State)
  | panic (m : PanicMsg) (s : State)
  | nullderef (s : State)
  | diverge

/-- The state in which a run ended, when it ended. -/
def Outcome.final {α : Type} : Outcome α → Option State
  | .ret _ s => some s
  | .panic _ s => some s
  | .nullderef s => some s
  | .diverge => none

/-- The memory `m` after a store of `v` at address `a`. -/
def upd {α : Type} (m : Nat → α) (a : Nat) (v : α) : Nat → α :=
  fun x => if x = a then v else m x

/-- The value `x` as a 32-bit `uint`: `x` modulo `2^32`. -/
def wrap32 (x : Nat) : Nat :=
  x % 4294967296

/-- Append one event to the trace. -/
def State.emit (s : State) (e : Event) : State :=
  { s with trace := s.trace ++ [e] }

/-- Store `v` at the `struct file` address `f`. -/
def State.setFile (s : State) (f : Nat) (v : file) : State :=
  { s with files := upd s.files f v }

/-- Store `v` at the `struct pipe` address `p`. -/
def State.setPipe (s : State) (p : Nat) (v : pipe) : State :=
  { s with pipes := upd s.pipes p v }

/-- Store `v` at the `struct inode` address `ip`. -/
def State.setInode (s : State) (ip : Nat) (v : inode) : State :=
  { s with inodes := upd s.inodes ip v }

/-! ## filealloc -/

/-- The scan of `filealloc`: `for(f = ftable.file; f < ftable.file + NFILE; f++)`
started at address `f` with `k` slots left; the first slot with `ref == 0`. -/
def filealloc_scan (files : Nat → file) : Nat → Nat → Option Nat
  | _, 0 => none
  | f, k + 1 => if (files f).ref = 0 then some f else filealloc_scan files (f + 1) k

/-- Embedding of `filealloc` (file.c lines 27-42); `none` is the null result. -/
def filealloc (c : Config) (s : State) : Outcome (Option Nat) :=
  let s1 := s.emit Event.acquire_ftable
  match filealloc_scan s1.files 0 c.NFILE with
  | some f =>
    let s2 := s1.setFile f { s1.files f with ref := 1 }
    Outcome.ret (some f) (s2.emit Event.release_ftable)
  | none => Outcome.ret none (s1.emit Event.release_ftable)

/-! ## filedup -/

/-- Lines 54-59 of `filedup`: the endpoint counters of a FIFO handle. -/
def filedup_fifo (s : State) (f : Nat) : State :=
  if (s.files f).type = FdType.FD_FIFO then
    let p := (s.files f).pipe
    let s1 := s.emit (Event.acquire_pipe p)
    let s2 := s1.setPipe p { s1.pipes p with writeopen := (s1.pipes p).writeopen + (s1.files f).writable }
    let s3 := s2.setPipe p { s2.pipes p with readopen := (s2.pipes p).readopen + (s2.files f).readable }
    s3.emit (Event.release_pipe p)
  else s

/-- Embedding of `filedup` (file.c lines 47-62). -/
def filedup (s : State) (f : Nat) : Outcome Nat :=
  let s1 := s.emit Event.acquire_ftable
  if (s1.files f).ref < 1 then Outcome.panic PanicMsg.filedup s1
  else
    let s2 := s1.setFile f { s1.files f with ref := (s1.files f).ref + 1 }
    let s3 := filedup_fifo s2 f
    Outcome.ret f (s3.emit Event.release_ftable)

/-! ## fileclose -/

/-- Lines 80-86 of `fileclose`: the endpoint counter update on the pipe at
address `pid` for a handle with the given `writable` flag, and the wakeups it
issues. -/
def fileclose_counters (pid : Nat) (writable : Int) (p : pipe) : pipe × List Event :=
  if writable ≠ 0 then
    if p.writeopen - 1 ≤ 0 then ({ p with writeopen := 0 }, [Event.wakeup_nread pid])
    else ({ p with writeopen := p.writeopen - 1 }, [])
  else
    if p.readopen - 1 ≤ 0 then ({ p with readopen := 0 }, [Event.wakeup_nwrite pid])
    else ({ p with readopen := p.readopen - 1 }, [])

/-- Lines 73-91 of `fileclose`: the FIFO branch of the bookkeeping; the Boolean
is `should_delete`. -/
def fileclose_fifo (s : State) (f : Nat) : State × Bool :=
  if (s.files f).type = FdType.FD_FIFO then
    let p := (s.files f).pipe
    let s1 := s.emit (Event.acquire_pipe p)
    let r := fileclose_counters p (s1.files f).writable (s1.pipes p)
    let s2 : State := { s1.setPipe p r.1 with trace := s1.trace ++ r.2 }
    let del := decide ((s2.pipes p).writeopen = 0 ∧ (s2.pipes p).readopen = 0)
    (s2.emit (Event.release_pipe p), del)
  else (s, false)

/-- Lines 70-99 of `fileclose` (the part under `ftable.lock`).  The result is
`none` after the early return of line 94 and `some ff`, the copy made on line 96,
when the slot was reset. -/
def fileclose_phase1 (s : State) (f : Nat) : Outcome (Option file) :=
  let s1 := s.emit Event.acquire_ftable
  if (s1.files f).ref < 1 then Outcome.panic PanicMsg.fileclose s1
  else
    let r := fileclose_fifo s1 f
    let s2 := r.1.setFile f { r.1.files f with ref := (r.1.files f).ref - 1 }
    if (s2.files f).ref > 0 ∧ r.2 = false then
      Outcome.ret none (s2.emit Event.release_ftable)
    else
      let ff := s2.files f
      let s3 := s2.setFile f { s2.files f with ref := 0 }
      let s4 := s3.setFile f { s3.files f with type := FdType.FD_NONE }
      Outcome.ret (some ff) (s4.emit Event.release_ftable)

/-- Lines 101-118 of `fileclose`: the teardown, dispatched on the copy `ff`. -/
def fileclose_phase2 (c : Config) (s : State) (ff : file) : Outcome Unit :=
  if ff.type = FdType.FD_FIFO then
    let s0 : State := { s with pipes := c.pipeclose ff.pipe ff.writable s.pipes }
    let s1 := s0.emit (Event.pipeclose ff.pipe ff.writable)
    let s2 := s1.emit (Event.ilock ff.ip)
    match (s2.inodes ff.ip).read_file with
    | none => Outcome.nullderef s2
    | some rf =>
      let s3 := s2.setFile rf { s2.files rf with ref := 0 }
      match (s3.inodes ff.ip).write_file with
      | none => Outcome.nullderef s3
      | some wf =>
        let s4 := s3.setFile wf { s3.files wf with ref := 0 }
        let s5 := s4.setInode ff.ip { s4.inodes ff.ip with read_file := none }
        let s6 := s5.setInode ff.ip { s5.inodes ff.ip with write_file := none }
        Outcome.ret () (s6.emit (Event.iunlock ff.ip))
  else if ff.type = FdType.FD_PIPE then
    let s0 : State := { s with pipes := c.pipeclose ff.pipe ff.writable s.pipes }
    Outcome.ret () (s0.emit (Event.pipeclose ff.pipe ff.writable))
  else if ff.type = FdType.FD_INODE then
    Outcome.ret () (((s.emit Event.begin_trans).emit (Event.iput ff.ip)).emit Event.commit_trans)
  else Outcome.ret () s

/-- Embedding of `fileclose` (file.c lines 65-119). -/
def fileclose (c : Config) (s : State) (f : Nat) : Outcome Unit :=
  match fileclose_phase1 s f with
  | Outcome.ret none s1 => Outcome.ret () s1
  | Outcome.ret (some ff) s1 => fileclose_phase2 c s1 ff
  | Outcome.panic m s1 => Outcome.panic m s1
  | Outcome.nullderef s1 => Outcome.nullderef s1
  | Outcome.diverge => Outcome.diverge

/-! ## fileread and filewrite -/

/-- Embedding of `fileread` (file.c lines 132-149). -/
def fileread (c : Config) (s : State) (f : Nat) (addr : Int) (n : Int) : Outcome Int :=
  if (s.files f).readable = 0 then Outcome.ret (-c.EBADF) s
  else if (s.files f).type = FdType.FD_PIPE ∨ (s.files f).type = FdType.FD_FIFO then
    Outcome.ret (c.piperead (s.files f).pipe addr n)
      (s.emit (Event.piperead (s.files f).pipe addr n))
  else if (s.files f).type = FdType.FD_INODE then
    let ip := (s.files f).ip
    let s1 := s.emit (Event.ilock ip)
    let r := c.readi ip addr (wrap32 (s1.files f).off) n
    let s2 := s1.emit (Event.readi ip addr (wrap32 (s1.files f).off) n r)
    let s3 := if r > 0 then
        s2.setFile f { s2.files f with off := wrap32 ((s2.files f).off + r.toNat) }
      else s2
    Outcome.ret r (s3.emit (Event.iunlock ip))
  else Outcome.panic PanicMsg.fileread s

/-- The bound of line 169: `((LOGSIZE-1-1-2) / 2) * 512`, with C's division,
which truncates toward zero. -/
def maxChunkBytes (c : Config) : Int :=
  (Int.tdiv (c.LOGSIZE - 1 - 1 - 2) 2) * 512

/-- The `while(i < n)` loop of `filewrite` (lines 171-189, with the `return` of
line 189).  `k` counts the calls of `writei` made so far and the first argument
bounds the number of iterations still allowed. -/
def filewrite_loop (c : Config) (f : Nat) (addr n : Int) : Nat → Nat → Int → State → Outcome Int
  | 0, _, i, s =>
    if i < n then Outcome.diverge
    else Outcome.ret (if i = n then n else -c.EIO_errno) s
  | fuel + 1, k, i, s =>
    if i < n then
      let n1 := if n - i > maxChunkBytes c then maxChunkBytes c else n - i
      let s1 := s.emit Event.begin_trans
      let ip := (s1.files f).ip
      let s2 := s1.emit (Event.ilock ip)
      let r := c.writei k ip (addr + i) (wrap32 (s2.files f).off) n1
      let s3 := s2.emit (Event.writei ip (addr + i) (wrap32 (s2.files f).off) n1 r)
      let s4 := if r > 0 then
          s3.setFile f { s3.files f with off := wrap32 ((s3.files f).off + r.toNat) }
        else s3
      let s5 := (s4.emit (Event.iunlock ip)).emit Event.commit_trans
      if r < 0 then Outcome.ret (if i = n then n else -c.EIO_errno) s5
      else if r ≠ n1 then Outcome.panic PanicMsg.short_filewrite s5
      else filewrite_loop c f addr n fuel (k + 1) (i + r) s5
    else Outcome.ret (if i = n then n else -c.EIO_errno) s

/-- Embedding of `filewrite` (file.c lines 153-192) with a loop budget. -/
def filewrite (c : Config) (fuel : Nat) (s : State) (f : Nat) (addr : Int) (n : Int) : Outcome Int :=
  if (s.files f).writable = 0 then Outcome.ret (-c.EBADF) s
  else if (s.files f).type = FdType.FD_PIPE ∨ (s.files f).type = FdType.FD_FIFO then
    Outcome.ret (c.pipewrite (s.files f).pipe addr n)
      (s.emit (Event.pipewrite (s.files f).pipe addr n))
  else if (s.files f).type = FdType.FD_INODE then
    filewrite_loop c f addr n fuel 0 0 s
  else Outcome.panic PanicMsg.filewrite s

/-! ## Definitions used in the statements -/

/-- The pipe record of handle `h` after lines 80-86 of `fileclose`. -/
def pipe_after_close (s : State) (h : Nat) : pipe :=
  (fileclose_counters (s.files h).pipe (s.files h).writable (s.pipes (s.files h).pipe)).1

/-- The wakeups issued by lines 80-86 of `fileclose` for handle `h`. -/
def wakeups_of_close (s : State) (h : Nat) : List Event :=
  (fileclose_counters (s.files h).pipe (s.files h).writable (s.pipes (s.files h).pipe)).2

/-- The value of `should_delete` on line 92 of `fileclose` for handle `h`. -/
def should_delete (s : State) (h : Nat) : Prop :=
  (s.files h).type = FdType.FD_FIFO ∧
    (pipe_after_close s h).writeopen = 0 ∧ (pipe_after_close s h).readopen = 0

instance (s : State) (h : Nat) : Decidable (should_delete s h) := by
  unfold should_delete
  infer_instance

/-- The state in which the part of `fileclose` under the table lock ends when
it returns early on line 94. -/
def close_kept (s : State) (h : Nat) : State :=
  (((fileclose_fifo (s.emit Event.acquire_ftable) h).1.setFile h
    { s.files h with ref := (s.files h).ref - 1 }).emit Event.release_ftable)

/-- The state in which the part of `fileclose` under the table lock ends when
the slot is reset (lines 96-99). -/
def close_freed (s : State) (h : Nat) : State :=
  (((fileclose_fifo (s.emit Event.acquire_ftable) h).1.setFile h
    { s.files h with ref := 0, type := FdType.FD_NONE }).emit Event.release_ftable)

/-- The calls that tear a handle down: `pipeclose` and `iput`. -/
def isTeardown : Event → Bool
  | Event.pipeclose _ _ => true
  | Event.iput _ => true
  | _ => false

/-- A configuration for the examples: `NFILE` 3, `LOGSIZE` 10, `EBADF` 9,
`EIO` 5, transfers that move everything asked for, and a `pipeclose` that leaves
the counters alone. -/
def cfg0 : Config :=
  { NFILE := 3, LOGSIZE := 10, EBADF := 9, EIO_errno := 5,
    readi := fun _ _ _ n => n, writei := fun _ _ _ _ n => n,
    piperead := fun _ _ n => n, pipewrite := fun _ _ n => n,
    pipeclose := fun _ _ m => m }

/-- A memory whose files are all the inode handle with the given `ref`, flags
`readable = writable = 1` and offset 0; every pipe has both counters 1. -/
def st_inode (ref : Int) : State :=
  { files := fun _ => { type := FdType.FD_INODE, ref := ref, readable := 1, writable := 1,
                        pipe := 0, ip := 0, off := 0 },
    pipes := fun _ => { readopen := 1, writeopen := 1 },
    inodes := fun _ => { read_file := none, write_file := none },
    trace := [] }

/-- A memory whose files are all the FIFO handle with the given `ref` and flags
(pipe 0, inode 0), whose pipes all have the counters `ro` and `wo`, and whose
inodes all record the files 1 and 2 as read and write handle. -/
def st_fifo (ref readable writable ro wo : Int) : State :=
  { files := fun _ => { type := FdType.FD_FIFO, ref := ref, readable := readable,
                        writable := writable, pipe := 0, ip := 0, off := 0 },
    pipes := fun _ => { readopen := ro, writeopen := wo },
    inodes := fun _ => { read_file := some 1, write_file := some 2 },
    trace := [] }

/-- The invariant of the spec on the table: in every slot, `ref == 0` exactly
when the kind is `FD_NONE`. -/
def pool_inv (c : Config) (s : State) : Prop :=
  ∀ f, f < c.NFILE → ((s.files f).ref = 0 ↔ (s.files f).type = FdType.FD_NONE)

/-- The invariant in the single slot `f`. -/
def slot_inv (s : State) (f : Nat) : Prop :=
  (s.files f).ref = 0 ↔ (s.files f).type = FdType.FD_NONE

/-- A memory whose files are all unused (`ref` 0, kind `FD_NONE`). -/
def st_empty : State :=
  { files := fun _ => { type := FdType.FD_NONE, ref := 0, readable := 0, writable := 0,
                        pipe := 0, ip := 0, off := 0 },
    pipes := fun _ => { readopen := 0, writeopen := 0 },
    inodes := fun _ => { read_file := none, write_file := none },
    trace := [] }

/-- The events of one iteration of the loop of `filewrite`: a transaction around
one `writei` of `n1` bytes from `addr` at file offset `off`, with result `r`. -/
def txn_events (ip : Nat) (addr : Int) (off : Nat) (n1 r : Int) : List Event :=
  [Event.begin_trans, Event.ilock ip, Event.writei ip addr off n1 r, Event.iunlock ip,
    Event.commit_trans]

/-- The events of chunk number `k` (counted from 0) of a write of `n` bytes from
`addr`, when the chunk is written in full: the data from `addr + k*max`,
written at the file offset `offs k`, of size `min(n - k*max, max)`. -/
def chunk_events (c : Config) (ip : Nat) (addr : Int) (offs : Nat → Nat) (n : Int) (k : Nat) :
    List Event :=
  txn_events ip (addr + k * maxChunkBytes c) (offs k)
    (min (n - k * maxChunkBytes c) (maxChunkBytes c))
    (min (n - k * maxChunkBytes c) (maxChunkBytes c))

/-- The events of the chunks `0 .. j-1`, in order, chunk `k` being written at
the file offset `offs k`. -/
def first_chunks (c : Config) (ip : Nat) (addr : Int) (offs : Nat → Nat) (n : Int) :
    Nat → List Event
  | 0 => []
  | j + 1 => first_chunks c ip addr offs n j ++ chunk_events c ip addr offs n j

/-- The number of chunks of a write of `n` bytes: `n / max` rounded up. -/
def num_chunks (c : Config) (n : Int) : Nat :=
  ((n + maxChunkBytes c - 1) / maxChunkBytes c).toNat

/-- The state after one iteration of the loop of `filewrite` entered in `s` with
`k` calls made and `i` bytes written (lines 172-181). -/
def after_chunk (c : Config) (s : State) (f : Nat) (addr n : Int) (k : Nat) (i : Int) : State :=
  let n1 := min (n - i) (maxChunkBytes c)
  let s1 := s.emit Event.begin_trans
  let ip := (s1.files f).ip
  let s2 := s1.emit (Event.ilock ip)
  let r := c.writei k ip (addr + i) (wrap32 (s2.files f).off) n1
  let s3 := s2.emit (Event.writei ip (addr + i) (wrap32 (s2.files f).off) n1 r)
  let s4 := if r > 0 then
      s3.setFile f { s3.files f with off := wrap32 ((s3.files f).off + r.toNat) }
    else s3
  (s4.emit (Event.iunlock ip)).emit Event.commit_trans

/-- The offset passed to `writei` for chunk number `k`, when the write started
at the offset `o` and the chunks before were written in full: `o + k*max` as a
32-bit `uint`. -/
def chunk_off (c : Config) (o : Nat) (k : Nat) : Nat :=
  wrap32 (o + k * (maxChunkBytes c).toNat)

/-- The offset stored in the handle after `j` chunks were written in full, when
the write started at the offset `o`: `o` itself when nothing was written, and
`o + j*max` as a 32-bit `uint` otherwise. -/
def off_after (c : Config) (o : Nat) (j : Nat) : Nat :=
  if j = 0 then o else wrap32 (o + j * (maxChunkBytes c).toNat)

/-- The state after `j` chunks were written in full, starting from `s`. -/
def after_chunks (c : Config) (s : State) (f : Nat) (addr n : Int) (j : Nat) : State :=
  { files := upd s.files f { s.files f with off := off_after c (s.files f).off j },
    pipes := s.pipes,
    inodes := s.inodes,
    trace := s.trace ++ first_chunks c (s.files f).ip addr (chunk_off c (s.files f).off) n j }

/-- The result of the `writei` call of chunk number `k` (counted from 0) of a
write of `n` bytes from `addr` through handle `f`, when the chunks before it
were written in full. -/
def chunk_result (c : Config) (s : State) (f : Nat) (addr n : Int) (k : Nat) : Int :=
  c.writei k (s.files f).ip (addr + k * maxChunkBytes c) (chunk_off c (s.files f).off k)
    (min (n - k * maxChunkBytes c) (maxChunkBytes c))

/-- The chunks before chunk `j` are written in full: each `writei` call returns
the size it was given. -/
def chunks_ok (c : Config) (s : State) (f : Nat) (addr : Int) (j : Nat) : Prop :=
  ∀ q : Nat, q < j →
    c.writei q (s.files f).ip (addr + q * maxChunkBytes c) (chunk_off c (s.files f).off q)
      (maxChunkBytes c) = maxChunkBytes c

/-- A configuration whose `writei` writes the first `good` chunks in full and
fails with -1 from then on. -/
def cfg_err (good : Nat) : Config :=
  { cfg0 with writei := fun k _ _ _ m => if k < good then m else -1 }

/-- A configuration whose `writei` always returns 0. -/
def cfg_zero : Config :=
  { cfg0 with writei := fun _ _ _ _ _ => 0 }

/-- Run `o` and, if it returns, continue with `k` on its value and state; a run
that ended otherwise stays as it ended. -/
def Outcome.andThen {α β : Type} (o : Outcome α) (k : α → State → Outcome β) : Outcome β :=
  match o with
  | Outcome.ret v s => k v s
  | Outcome.panic m s => Outcome.panic m s
  | Outcome.nullderef s => Outcome.nullderef s
  | Outcome.diverge => Outcome.diverge

/-- The events of lines 70-99 of `fileclose` for handle `h`: the table lock
around, for a FIFO, the pipe lock around the wakeups. -/
def phase1_events (s : State) (h : Nat) : List Event :=
  [Event.acquire_ftable] ++
    (if (s.files h).type = FdType.FD_FIFO then
      [Event.acquire_pipe (s.files h).pipe] ++ wakeups_of_close s h ++
        [Event.release_pipe (s.files h).pipe]
     else []) ++
    [Event.release_ftable]

/-- The state after the FIFO branch of the teardown (lines 105-111) run in `s`
on the copy `ff`, when the inode records the handles `rf` and `wf`. -/
def teardown_fifo (c : Config) (s : State) (ff : file) (rf wf : Nat) : State :=
  { files := upd (upd s.files rf { s.files rf with ref := 0 }) wf
      { upd s.files rf { s.files rf with ref := 0 } wf with ref := 0 },
    pipes := c.pipeclose ff.pipe ff.writable s.pipes,
    inodes := upd s.inodes ff.ip { read_file := none, write_file := none },
    trace := s.trace ++
      [Event.pipeclose ff.pipe ff.writable, Event.ilock ff.ip, Event.iunlock ff.ip] }

/-- The number of free slots of the table: the slots `j < NFILE` with `ref == 0`. -/
def free_count (c : Config) (s : State) : Nat :=
  (List.range c.NFILE).countP (fun j => decide ((s.files j).ref = 0))

/-- The caller that makes `n` calls of `filealloc` in a row: the results in
order, and the state at the end. -/
def filealloc_n (c : Config) : Nat → State → List (Option Nat) × State
  | 0, s => ([], s)
  | n + 1, s =>
    match filealloc c s with
    | Outcome.ret r s1 => (r :: (filealloc_n c n s1).1, (filealloc_n c n s1).2)
    | _ => ([], s)

/-- The sum of the positive results of the `readi` and `writei` calls among the
events (`r.toNat` is `r` for a positive `r` and 0 otherwise). -/
def transfer_sum : List Event → Nat
  | [] => 0
  | Event.readi _ _ _ _ r :: es => r.toNat + transfer_sum es
  | Event.writei _ _ _ _ r :: es => r.toNat + transfer_sum es
  | _ :: es => transfer_sum es

/-- The calls of the teardown of `fileclose` (lines 101-118): `pipeclose`,
`ilock`, `iunlock`, `begin_trans`, `iput`, `commit_trans`. -/
def isPhase2Call : Event → Bool
  | Event.pipeclose _ _ => true
  | Event.ilock _ => true
  | Event.iunlock _ => true
  | Event.begin_trans => true
  | Event.iput _ => true
  | Event.commit_trans => true
  | _ => false

/-- The wakeups on the two wait channels of a pipe. -/
def isWakeup : Event → Bool
  | Event.wakeup_nread _ => true
  | Event.wakeup_nwrite _ => true
  | _ => false

/-- The state in which `filedup` of a handle with `ref >= 1` returns. -/
def dup_state (s : State) (h : Nat) : State :=
  (filedup_fifo ((s.emit Event.acquire_ftable).setFile h
    { s.files h with ref := (s.files h).ref + 1 }) h).emit Event.release_ftable

/-- A configuration with `LOGSIZE = 4`, hence `maxChunkBytes = 0`, whose `writei`
returns the size it was given. -/
def cfg_stuck : Config :=
  { cfg0 with LOGSIZE := 4 }

/-- A configuration whose `writei` always writes one byte. -/
def cfg_one : Config :=
  { cfg0 with writei := fun _ _ _ _ _ => 1 }

/-- A memory whose files are all the inode handle with `ref = 1`, flags
`readable = writable = 1` and the given offset. -/
def st_inode_at (o : Nat) : State :=
  { files := fun _ => { type := FdType.FD_INODE, ref := 1, readable := 1, writable := 1,
                        pipe := 0, ip := 0, off := o },
    pipes := fun _ => { readopen := 1, writeopen := 1 },
    inodes := fun _ => { read_file := none, write_file := none },
    trace := [] }

@[simp] theorem upd_same {α : Type} (m : Nat → α) (a : Nat) (v : α) : upd m a v a = v := by
  simp [upd]

@[simp] theorem upd_upd {α : Type} (m : Nat → α) (a : Nat) (v w : α) :
    upd (upd m a v) a w = upd m a w := by
  funext x
  by_cases h : x = a <;> simp [upd, h]

theorem upd_other {α : Type} (m : Nat → α) (a : Nat) (v : α) (x : Nat) (h : x ≠ a) :
    upd m a v x = m x := by
  simp [upd, h]

@[simp] theorem emit_files (s : State) (e : Event) : (s.emit e).files = s.files := rfl

@[simp] theorem emit_pipes (s : State) (e : Event) : (s.emit e).pipes = s.pipes := rfl

@[simp] theorem emit_inodes (s : State) (e : Event) : (s.emit e).inodes = s.inodes := rfl

@[simp] theorem emit_trace (s : State) (e : Event) : (s.emit e).trace = s.trace ++ [e] := rfl

@[simp] theorem setFile_files (s : State) (f : Nat) (v : file) :
    (s.setFile f v).files = upd s.files f v := rfl

@[simp] theorem setFile_pipes (s : State) (f : Nat) (v : file) : (s.setFile f v).pipes = s.pipes := rfl

@[simp] theorem setFile_inodes (s : State) (f : Nat) (v : file) :
    (s.setFile f v).inodes = s.inodes := rfl

@[simp] theorem setFile_trace (s : State) (f : Nat) (v : file) : (s.setFile f v).trace = s.trace := rfl

@[simp] theorem setPipe_files (s : State) (p : Nat) (v : pipe) : (s.setPipe p v).files = s.files := rfl

@[simp] theorem setPipe_pipes (s : State) (p : Nat) (v : pipe) :
    (s.setPipe p v).pipes = upd s.pipes p v := rfl

@[simp] theorem setPipe_inodes (s : State) (p : Nat) (v : pipe) :
    (s.setPipe p v).inodes = s.inodes := rfl

@[simp] theorem setPipe_trace (s : State) (p : Nat) (v : pipe) : (s.setPipe p v).trace = s.trace := rfl

@[simp] theorem setInode_files (s : State) (p : Nat) (v : inode) :
    (s.setInode p v).files = s.files := rfl

@[simp] theorem setInode_pipes (s : State) (p : Nat) (v : inode) :
    (s.setInode p v).pipes = s.pipes := rfl

@[simp] theorem setInode_inodes (s : State) (p : Nat) (v : inode) :
    (s.setInode p v).inodes = upd s.inodes p v := rfl

@[simp] theorem setInode_trace (s : State) (p : Nat) (v : inode) :
    (s.setInode p v).trace = s.trace := rfl

/-! ## filealloc -/

theorem filealloc_scan_some (files : Nat → file) (k f g : Nat) :
    filealloc_scan files f k = some g ↔
      f ≤ g ∧ g < f + k ∧ (files g).ref = 0 ∧ ∀ j, f ≤ j → j < g → (files j).ref ≠ 0 := by
  induction k generalizing f with
  | zero =>
    simp only [filealloc_scan]
    constructor
    · intro h; cases h
    · rintro ⟨h1, h2, _⟩
      omega
  | succ k ih =>
    unfold filealloc_scan
    by_cases h0 : (files f).ref = 0
    · simp only [h0, if_true, Option.some.injEq]
      constructor
      · rintro rfl
        exact ⟨le_refl _, by omega, h0, fun j h1 h2 => by omega⟩
      · rintro ⟨h1, _, _, h4⟩
        by_contra hne
        exact h4 f (le_refl _) (by omega) h0
    · simp only [h0, if_false, ih]
      constructor
      · rintro ⟨h1, h2, h3, h4⟩
        refine ⟨by omega, by omega, h3, fun j hj1 hj2 => ?_⟩
        by_cases hjf : j = f
        · subst hjf; exact h0
        · exact h4 j (by omega) hj2
      · rintro ⟨h1, h2, h3, h4⟩
        have hfg : f ≠ g := by
          rintro rfl
          exact h0 h3
        exact ⟨by omega, by omega, h3, fun j hj1 hj2 => h4 j (by omega) hj2⟩

theorem filealloc_scan_none (files : Nat → file) (k f : Nat) :
    filealloc_scan files f k = none ↔ ∀ j, f ≤ j → j < f + k → (files j).ref ≠ 0 := by
  induction k generalizing f with
  | zero =>
    simp only [filealloc_scan]
    constructor
    · intro _ j h1 h2
      omega
    · intro _; trivial
  | succ k ih =>
    unfold filealloc_scan
    by_cases h0 : (files f).ref = 0
    · simp only [h0, if_true]
      constructor
      · intro h; cases h
      · intro h; exact absurd h0 (h f (le_refl _) (by omega))
    · simp only [h0, if_false, ih]
      constructor
      · intro h j hj1 hj2
        by_cases hjf : j = f
        · subst hjf; exact h0
        · exact h j (by omega) (by omega)
      · intro h j hj1 hj2
        exact h j (by omega) (by omega)

theorem filealloc_spec (c : Config) (s : State) :
    ∃ r s', filealloc c s = Outcome.ret r s' ∧
      (∀ f, r = some f ↔
        (f < c.NFILE ∧ (s.files f).ref = 0 ∧ ∀ j, j < f → (s.files j).ref ≠ 0)) ∧
      (∀ f, r = some f →
        s'.files = upd s.files f { s.files f with ref := 1 }) ∧
      (r = none ↔ ∀ j, j < c.NFILE → (s.files j).ref ≠ 0) ∧
      (r = none → s'.files = s.files) ∧
      s'.pipes = s.pipes ∧ s'.inodes = s.inodes := by
  unfold filealloc
  simp only [emit_files]
  cases hsc : filealloc_scan s.files 0 c.NFILE with
  | none =>
    refine ⟨none, _, rfl, ?_, ?_, ?_, ?_, rfl, rfl⟩
    · intro f
      have h := (filealloc_scan_none s.files c.NFILE 0).1 hsc
      constructor
      · intro h1; cases h1
      · rintro ⟨h1, h2, _⟩
        exact absurd h2 (h f (Nat.zero_le _) (by omega))
    · intro f h1; cases h1
    · have h := (filealloc_scan_none s.files c.NFILE 0).1 hsc
      exact ⟨fun _ j hj => h j (Nat.zero_le _) (by omega), fun _ => rfl⟩
    · intro _; rfl
  | some g =>
    have h := (filealloc_scan_some s.files c.NFILE 0 g).1 hsc
    refine ⟨some g, _, rfl, ?_, ?_, ?_, ?_, rfl, rfl⟩
    · intro f
      constructor
      · intro h1
        cases h1
        exact ⟨by omega, h.2.2.1, fun j hj => h.2.2.2 j (Nat.zero_le _) hj⟩
      · rintro ⟨h1, h2, h3⟩
        have : f = g := by
          rcases Nat.lt_trichotomy f g with hlt | heq | hgt
          · exact absurd h2 (h.2.2.2 f (Nat.zero_le _) hlt)
          · exact heq
          · exact absurd h.2.2.1 (h3 g hgt)
        rw [this]
    · intro f h1
      cases h1
      rfl
    · constructor
      · intro h1; cases h1
      · intro h1
        exact absurd h.2.2.1 (h1 g (by omega))
    · intro h1; cases h1

/-- C2: `filealloc` always returns; it returns the slot `f` exactly when `f` is
the lowest table index whose `ref` is 0, and then the only change to the file
memory is that `ref` of slot `f` is 1; it returns null exactly when no table
slot has `ref` 0, and then the file memory is unchanged. Pipes and inodes are
never touched. -/
theorem filealloc_first_free (c : Config) (s : State) :
    ∃ r s', filealloc c s = Outcome.ret r s' ∧
      (∀ f, r = some f ↔
        (f < c.NFILE ∧ (s.files f).ref = 0 ∧ ∀ j, j < f → (s.files j).ref ≠ 0)) ∧
      (∀ f, r = some f →
        s'.files = upd s.files f { s.files f with ref := 1 }) ∧
      (r = none ↔ ∀ j, j < c.NFILE → (s.files j).ref ≠ 0) ∧
      (r = none → s'.files = s.files) ∧
      s'.pipes = s.pipes ∧ s'.inodes = s.inodes := by
  unfold filealloc
  simp only [emit_files]
  cases hsc : filealloc_scan s.files 0 c.NFILE with
  | none =>
    refine ⟨none, _, rfl, ?_, ?_, ?_, ?_, rfl, rfl⟩
    · intro f
      have h := (filealloc_scan_none s.files c.NFILE 0).1 hsc
      constructor
      · intro h1; cases h1
      · rintro ⟨h1, h2, _⟩
        exact absurd h2 (h f (Nat.zero_le _) (by omega))
    · intro f h1; cases h1
    · have h := (filealloc_scan_none s.files c.NFILE 0).1 hsc
      exact ⟨fun _ j hj => h j (Nat.zero_le _) (by omega), fun _ => rfl⟩
    · intro _; rfl
  | some g =>
    have h := (filealloc_scan_some s.files c.NFILE 0 g).1 hsc
    refine ⟨some g, _, rfl, ?_, ?_, ?_, ?_, rfl, rfl⟩
    · intro f
      constructor
      · intro h1
        cases h1
        exact ⟨by omega, h.2.2.1, fun j hj => h.2.2.2 j (Nat.zero_le _) hj⟩
      · rintro ⟨h1, h2, h3⟩
        have : f = g := by
          rcases Nat.lt_trichotomy f g with hlt | heq | hgt
          · exact absurd h2 (h.2.2.2 f (Nat.zero_le _) hlt)
          · exact heq
          · exact absurd h.2.2.1 (h3 g hgt)
        rw [this]
    · intro f h1
      cases h1
      rfl
    · constructor
      · intro h1; cases h1
      · intro h1
        exact absurd h.2.2.1 (h1 g (by omega))
    · intro h1; cases h1

/-! ## filedup -/

theorem filedup_fifo_files (s : State) (f : Nat) : (filedup_fifo s f).files = s.files := by
  unfold filedup_fifo
  split <;> rfl

theorem filedup_fifo_inodes (s : State) (f : Nat) : (filedup_fifo s f).inodes = s.inodes := by
  unfold filedup_fifo
  split <;> rfl

theorem filedup_fifo_pipes_fifo (s : State) (f : Nat) (h : (s.files f).type = FdType.FD_FIFO) :
    (filedup_fifo s f).pipes = upd s.pipes (s.files f).pipe
      { readopen := (s.pipes (s.files f).pipe).readopen + (s.files f).readable,
        writeopen := (s.pipes (s.files f).pipe).writeopen + (s.files f).writable } := by
  unfold filedup_fifo
  simp [h]

theorem filedup_fifo_pipes_other (s : State) (f : Nat) (h : (s.files f).type ≠ FdType.FD_FIFO) :
    (filedup_fifo s f).pipes = s.pipes := by
  unfold filedup_fifo
  simp [h]

theorem filedup_eq (s : State) (h : Nat) (hr : 1 ≤ (s.files h).ref) :
    filedup s h = Outcome.ret h
      ((filedup_fifo ((s.emit Event.acquire_ftable).setFile h
        { s.files h with ref := (s.files h).ref + 1 }) h).emit Event.release_ftable) := by
  have hnot : ¬ (s.files h).ref < 1 := by omega
  unfold filedup
  simp only [emit_files, hnot, if_false]

theorem filedup_spec (s : State) (h : Nat) (hr : 1 ≤ (s.files h).ref) :
    ∃ s', filedup s h = Outcome.ret h s' ∧
      (s'.files h).ref = (s.files h).ref + 1 ∧
      (s'.files h).type = (s.files h).type ∧
      (s'.files h).readable = (s.files h).readable ∧
      (s'.files h).writable = (s.files h).writable ∧
      (s'.files h).off = (s.files h).off ∧
      (s'.files h).pipe = (s.files h).pipe ∧
      (s'.files h).ip = (s.files h).ip ∧
      (∀ g, g ≠ h → s'.files g = s.files g) ∧
      ((s.files h).type = FdType.FD_FIFO →
        (s'.pipes (s.files h).pipe).writeopen =
            (s.pipes (s.files h).pipe).writeopen + (s.files h).writable ∧
        (s'.pipes (s.files h).pipe).readopen =
            (s.pipes (s.files h).pipe).readopen + (s.files h).readable ∧
        ∀ q, q ≠ (s.files h).pipe → s'.pipes q = s.pipes q) ∧
      ((s.files h).type ≠ FdType.FD_FIFO → s'.pipes = s.pipes) ∧
      s'.inodes = s.inodes := by
  refine ⟨_, filedup_eq s h hr, ?_⟩
  · simp only [emit_files, emit_pipes, emit_inodes, filedup_fifo_files, filedup_fifo_inodes,
      setFile_files, setFile_inodes, upd_same]
    refine ⟨trivial, trivial, trivial, trivial, trivial, trivial, trivial, ?_, ?_, ?_, trivial⟩
    · intro g hg
      exact upd_other _ _ _ _ hg
    · intro hf
      rw [filedup_fifo_pipes_fifo _ _ (by simpa using hf)]
      simp only [setFile_files, setFile_pipes, emit_files, emit_pipes, upd_same,
        true_and]
      intro q hq
      exact upd_other _ _ _ _ hq
    · intro hf
      exact filedup_fifo_pipes_other _ _ (by simpa using hf)

/-- C7: for a handle `h` with `ref >= 1`, `filedup` returns `h`; `ref` of `h`
grows by exactly 1 while its kind, flags, offset and pointers stay, and every
other `struct file` is unchanged; for a FIFO the pipe's `writeopen` grows by
`writable` and `readopen` by `readable` (no other pipe changes), and for any
other kind no pipe changes at all. -/
theorem filedup_increments (s : State) (h : Nat) (hr : 1 ≤ (s.files h).ref) :
    ∃ s', filedup s h = Outcome.ret h s' ∧
      (s'.files h).ref = (s.files h).ref + 1 ∧
      (s'.files h).type = (s.files h).type ∧
      (s'.files h).readable = (s.files h).readable ∧
      (s'.files h).writable = (s.files h).writable ∧
      (s'.files h).off = (s.files h).off ∧
      (s'.files h).pipe = (s.files h).pipe ∧
      (s'.files h).ip = (s.files h).ip ∧
      (∀ g, g ≠ h → s'.files g = s.files g) ∧
      ((s.files h).type = FdType.FD_FIFO →
        (s'.pipes (s.files h).pipe).writeopen =
            (s.pipes (s.files h).pipe).writeopen + (s.files h).writable ∧
        (s'.pipes (s.files h).pipe).readopen =
            (s.pipes (s.files h).pipe).readopen + (s.files h).readable ∧
        ∀ q, q ≠ (s.files h).pipe → s'.pipes q = s.pipes q) ∧
      ((s.files h).type ≠ FdType.FD_FIFO → s'.pipes = s.pipes) ∧
      s'.inodes = s.inodes := by
  refine ⟨_, filedup_eq s h hr, ?_⟩
  · simp only [emit_files, emit_pipes, emit_inodes, filedup_fifo_files, filedup_fifo_inodes,
      setFile_files, setFile_inodes, upd_same]
    refine ⟨trivial, trivial, trivial, trivial, trivial, trivial, trivial, ?_, ?_, ?_, trivial⟩
    · intro g hg
      exact upd_other _ _ _ _ hg
    · intro hf
      rw [filedup_fifo_pipes_fifo _ _ (by simpa using hf)]
      simp only [setFile_files, setFile_pipes, emit_files, emit_pipes, upd_same,
        true_and]
      intro q hq
      exact upd_other _ _ _ _ hq
    · intro hf
      exact filedup_fifo_pipes_other _ _ (by simpa using hf)

/-- Witness for C7: a FIFO write end with `ref = 1`. -/
theorem filedup_increments_witness :
    ∃ s', filedup
        { files := fun _ => { type := FdType.FD_FIFO, ref := 1, readable := 0, writable := 1,
                              pipe := 0, ip := 0, off := 0 },
          pipes := fun _ => { readopen := 1, writeopen := 1 },
          inodes := fun _ => { read_file := none, write_file := none },
          trace := [] } 0 = Outcome.ret 0 s' ∧
      (s'.files 0).ref = 2 ∧ (s'.pipes 0).writeopen = 2 ∧ (s'.pipes 0).readopen = 1 := by
  obtain ⟨s', h1, h2, _, _, _, _, _, _, _, h3, _⟩ := filedup_increments
    { files := fun _ => { type := FdType.FD_FIFO, ref := 1, readable := 0, writable := 1,
                          pipe := 0, ip := 0, off := 0 },
      pipes := fun _ => { readopen := 1, writeopen := 1 },
      inodes := fun _ => { read_file := none, write_file := none },
      trace := [] } 0 (by decide)
  exact ⟨s', h1, h2, (h3 rfl).1, (h3 rfl).2.1⟩

/-! ## fileclose: the part under the table lock -/

theorem fileclose_fifo_files (s : State) (f : Nat) : (fileclose_fifo s f).1.files = s.files := by
  unfold fileclose_fifo
  split <;> rfl

theorem fileclose_fifo_inodes (s : State) (f : Nat) : (fileclose_fifo s f).1.inodes = s.inodes := by
  unfold fileclose_fifo
  split <;> rfl

theorem fileclose_fifo_other (s : State) (f : Nat) (h : (s.files f).type ≠ FdType.FD_FIFO) :
    fileclose_fifo s f = (s, false) := by
  unfold fileclose_fifo
  simp [h]

theorem fileclose_fifo_pipes (s : State) (f : Nat) (h : (s.files f).type = FdType.FD_FIFO) :
    (fileclose_fifo s f).1.pipes = upd s.pipes (s.files f).pipe (pipe_after_close s f) := by
  unfold fileclose_fifo pipe_after_close
  simp [h]

theorem fileclose_fifo_trace (s : State) (f : Nat) (h : (s.files f).type = FdType.FD_FIFO) :
    (fileclose_fifo s f).1.trace =
      s.trace ++ ([Event.acquire_pipe (s.files f).pipe] ++ wakeups_of_close s f ++
        [Event.release_pipe (s.files f).pipe]) := by
  unfold fileclose_fifo wakeups_of_close
  simp [h]

theorem fileclose_fifo_flag (s : State) (f : Nat) :
    (fileclose_fifo s f).2 = true ↔ should_delete s f := by
  unfold fileclose_fifo should_delete pipe_after_close
  by_cases h : (s.files f).type = FdType.FD_FIFO
  · simp [h]
  · simp [h]

theorem fileclose_phase1_panic (s : State) (h : Nat) (hr : (s.files h).ref < 1) :
    fileclose_phase1 s h = Outcome.panic PanicMsg.fileclose (s.emit Event.acquire_ftable) := by
  unfold fileclose_phase1
  simp only [emit_files, hr, if_true]

theorem fileclose_phase1_kept (s : State) (h : Nat) (hr : 1 ≤ (s.files h).ref)
    (h1 : (s.files h).ref ≠ 1) (hd : ¬ should_delete s h) :
    fileclose_phase1 s h = Outcome.ret none (close_kept s h) := by
  have hnot : ¬ (s.files h).ref < 1 := by omega
  have hflag : (fileclose_fifo (s.emit Event.acquire_ftable) h).2 = false := by
    have := fileclose_fifo_flag (s.emit Event.acquire_ftable) h
    have hd2 : ¬ should_delete (s.emit Event.acquire_ftable) h := hd
    cases hb : (fileclose_fifo (s.emit Event.acquire_ftable) h).2
    · rfl
    · exact absurd (this.1 hb) hd2
  have hpos : (s.files h).ref - 1 > 0 := by omega
  unfold fileclose_phase1 close_kept
  simp only [emit_files, hnot, if_false, fileclose_fifo_files, setFile_files, upd_same, hflag,
    hpos, and_self, if_true]

theorem fileclose_phase1_freed (s : State) (h : Nat) (hr : 1 ≤ (s.files h).ref)
    (hc : (s.files h).ref = 1 ∨ should_delete s h) :
    fileclose_phase1 s h =
      Outcome.ret (some { s.files h with ref := (s.files h).ref - 1 }) (close_freed s h) := by
  have hnot : ¬ (s.files h).ref < 1 := by omega
  have hcond : ¬ ((s.files h).ref - 1 > 0 ∧ (fileclose_fifo (s.emit Event.acquire_ftable) h).2 = false) := by
    rintro ⟨hp, hf⟩
    rcases hc with hc | hc
    · omega
    · have := (fileclose_fifo_flag (s.emit Event.acquire_ftable) h).2 hc
      rw [hf] at this
      cases this
  unfold fileclose_phase1 close_freed
  simp only [emit_files, hnot, if_false, fileclose_fifo_files, setFile_files, upd_same, hcond,
    State.setFile, upd_upd]

/-! ## fileclose: the teardown and the whole function -/

theorem upd_ref_zero_type (m : Nat → file) (a g : Nat) :
    (upd m a { m a with ref := 0 } g).type = (m g).type := by
  by_cases h : g = a
  · subst h; simp
  · rw [upd_other _ _ _ _ h]

theorem upd_ref_zero_ref (m : Nat → file) (a g : Nat) (h0 : (m g).ref = 0) :
    (upd m a { m a with ref := 0 } g).ref = 0 := by
  by_cases h : g = a
  · subst h; simp
  · rw [upd_other _ _ _ _ h]; exact h0

theorem fileclose_phase2_final (c : Config) (s : State) (ff : file) :
    ∃ s', (fileclose_phase2 c s ff).final = some s' ∧
      ∀ g, (s'.files g).type = (s.files g).type ∧ ((s.files g).ref = 0 → (s'.files g).ref = 0) := by
  unfold fileclose_phase2
  by_cases h1 : ff.type = FdType.FD_FIFO
  · simp only [h1, if_true, emit_inodes, emit_files]
    cases hr : (s.inodes ff.ip).read_file with
    | none => exact ⟨_, rfl, fun g => ⟨rfl, fun h => h⟩⟩
    | some rf =>
      simp only [setFile_inodes, emit_inodes]
      cases hw : (s.inodes ff.ip).write_file with
      | none =>
        refine ⟨_, rfl, fun g => ⟨?_, ?_⟩⟩
        · exact upd_ref_zero_type _ _ _
        · exact upd_ref_zero_ref _ _ _
      | some wf =>
        refine ⟨_, rfl, fun g => ⟨?_, ?_⟩⟩
        · simp only [emit_files, setInode_files, setFile_files]
          rw [upd_ref_zero_type]
          exact upd_ref_zero_type _ _ _
        · intro h0
          simp only [emit_files, setInode_files, setFile_files]
          apply upd_ref_zero_ref
          exact upd_ref_zero_ref _ _ _ h0
  · simp only [h1, if_false]
    by_cases h2 : ff.type = FdType.FD_PIPE
    · simp only [h2, if_true]
      exact ⟨_, rfl, fun g => ⟨rfl, fun h => h⟩⟩
    · simp only [h2, if_false]
      by_cases h3 : ff.type = FdType.FD_INODE
      · simp only [h3, if_true]
        exact ⟨_, rfl, fun g => ⟨rfl, fun h => h⟩⟩
      · simp only [h3, if_false]
        exact ⟨_, rfl, fun g => ⟨rfl, fun h => h⟩⟩

theorem fileclose_phase2_no_panic (c : Config) (s : State) (ff : file) (m : PanicMsg)
    (s' : State) : fileclose_phase2 c s ff ≠ Outcome.panic m s' := by
  unfold fileclose_phase2
  by_cases h1 : ff.type = FdType.FD_FIFO
  · simp only [h1, if_true, emit_inodes, emit_files]
    cases hr : (s.inodes ff.ip).read_file with
    | none => intro he; cases he
    | some rf =>
      simp only [setFile_inodes, emit_inodes]
      cases hw : (s.inodes ff.ip).write_file with
      | none => intro he; cases he
      | some wf => intro he; cases he
  · simp only [h1, if_false]
    by_cases h2 : ff.type = FdType.FD_PIPE
    · simp only [h2, if_true]
      intro he; cases he
    · simp only [h2, if_false]
      by_cases h3 : ff.type = FdType.FD_INODE
      · simp only [h3, if_true]
        intro he; cases he
      · simp only [h3, if_false]
        intro he; cases he

theorem fileclose_phase2_not_fifo (c : Config) (s : State) (ff : file)
    (h : ff.type ≠ FdType.FD_FIFO) :
    ∃ s', fileclose_phase2 c s ff = Outcome.ret () s' ∧ s'.files = s.files ∧
      s'.inodes = s.inodes := by
  unfold fileclose_phase2
  simp only [h, if_false]
  by_cases h2 : ff.type = FdType.FD_PIPE
  · simp only [h2, if_true]
    exact ⟨_, rfl, rfl, rfl⟩
  · simp only [h2, if_false]
    by_cases h3 : ff.type = FdType.FD_INODE
    · simp only [h3, if_true]
      exact ⟨_, rfl, rfl, rfl⟩
    · simp only [h3, if_false]
      exact ⟨_, rfl, rfl, rfl⟩

theorem wakeups_not_teardown (s : State) (h : Nat) :
    ∀ e ∈ wakeups_of_close s h, isTeardown e = false := by
  unfold wakeups_of_close fileclose_counters
  intro e he
  split at he <;> split at he <;> simp at he <;> subst he <;> rfl

theorem close_kept_trace (s : State) (h : Nat) :
    ∃ evs, (close_kept s h).trace = s.trace ++ evs ∧ ∀ e ∈ evs, isTeardown e = false := by
  unfold close_kept
  by_cases hf : (s.files h).type = FdType.FD_FIFO
  · refine ⟨[Event.acquire_ftable] ++ ([Event.acquire_pipe (s.files h).pipe] ++
      wakeups_of_close s h ++ [Event.release_pipe (s.files h).pipe]) ++ [Event.release_ftable],
      ?_, ?_⟩
    · simp only [emit_trace, setFile_trace]
      rw [fileclose_fifo_trace _ _ (by simpa using hf)]
      simp [wakeups_of_close]
    · intro e he
      simp only [List.mem_append, List.mem_singleton] at he
      rcases he with (he | ((he | he) | he)) | he
      · subst he; rfl
      · subst he; rfl
      · exact wakeups_not_teardown s h e he
      · subst he; rfl
      · subst he; rfl
  · refine ⟨[Event.acquire_ftable, Event.release_ftable], ?_, ?_⟩
    · rw [fileclose_fifo_other _ _ (by simpa using hf)]
      simp
    · intro e he
      simp only [List.mem_cons, List.mem_singleton] at he
      rcases he with he | he | he
      · subst he; rfl
      · subst he; rfl
      · cases he

/-- C1: for a handle `h` with `ref >= 1`, `fileclose` ends with the slot of `h`
free (`ref` 0, kind `FD_NONE`) exactly when `ref` was 1 or `h` is a FIFO whose
pipe has `writeopen` and `readopen` both 0 after the endpoint counter update;
in every other case `fileclose` returns, `ref` of `h` is smaller by exactly 1,
every other field of `h` is unchanged, and no `pipeclose` or `iput` call was
made. -/
theorem fileclose_frees_iff (c : Config) (s : State) (h : Nat) (hr : 1 ≤ (s.files h).ref) :
    ∃ s', (fileclose c s h).final = some s' ∧
      (((s'.files h).ref = 0 ∧ (s'.files h).type = FdType.FD_NONE) ↔
        ((s.files h).ref = 1 ∨ should_delete s h)) ∧
      (¬ ((s.files h).ref = 1 ∨ should_delete s h) →
        fileclose c s h = Outcome.ret () s' ∧
        s'.files h = { s.files h with ref := (s.files h).ref - 1 } ∧
        ∃ evs, s'.trace = s.trace ++ evs ∧ ∀ e ∈ evs, isTeardown e = false) := by
  by_cases hc : (s.files h).ref = 1 ∨ should_delete s h
  · have hp1 := fileclose_phase1_freed s h hr hc
    obtain ⟨s', hs', hfr⟩ := fileclose_phase2_final c (close_freed s h)
      { s.files h with ref := (s.files h).ref - 1 }
    refine ⟨s', ?_, ?_, fun hn => absurd hc hn⟩
    · unfold fileclose
      rw [hp1]
      exact hs'
    · have h0 : ((close_freed s h).files h).ref = 0 := by simp [close_freed]
      have ht : ((close_freed s h).files h).type = FdType.FD_NONE := by simp [close_freed]
      exact ⟨fun _ => hc, fun _ => ⟨(hfr h).2 h0, by rw [(hfr h).1, ht]⟩⟩
  · have h1 : (s.files h).ref ≠ 1 := fun e => hc (Or.inl e)
    have hd : ¬ should_delete s h := fun e => hc (Or.inr e)
    have hp1 := fileclose_phase1_kept s h hr h1 hd
    have hfc : fileclose c s h = Outcome.ret () (close_kept s h) := by
      unfold fileclose
      rw [hp1]
    refine ⟨close_kept s h, by rw [hfc]; rfl, ?_, fun _ => ⟨hfc, ?_, close_kept_trace s h⟩⟩
    · have hne : ((close_kept s h).files h).ref ≠ 0 := by
        simp [close_kept]
        omega
      exact ⟨fun hh => absurd hh.1 hne, fun hh => absurd hh hc⟩
    · simp [close_kept]

/-- Witness for C1: closing an inode handle with `ref = 2` keeps the slot, with
`ref = 1`. -/
theorem fileclose_frees_iff_witness :
    ∃ s', fileclose cfg0 (st_inode 2) 0 = Outcome.ret () s' ∧ (s'.files 0).ref = 1 := by
  obtain ⟨s', _, _, h3⟩ := fileclose_frees_iff cfg0 (st_inode 2) 0 (by decide)
  have hn : ¬ (((st_inode 2).files 0).ref = 1 ∨ should_delete (st_inode 2) 0) := by
    simp [st_inode, should_delete]
  obtain ⟨h4, h5, _⟩ := h3 hn
  exact ⟨s', h4, by rw [h5]; rfl⟩

/-- C3: `filedup` and `fileclose` call `panic` exactly when `ref` of the handle
is below 1 at entry; the state at the `panic` has the file, pipe and inode
memory of the entry state (only the table lock was taken); a `fileclose` of a
handle with `ref = 0` does not return. -/
theorem dup_close_panic_iff (c : Config) (s : State) (h : Nat) :
    ((∃ m s', filedup s h = Outcome.panic m s') ↔ (s.files h).ref < 1) ∧
    ((∃ m s', fileclose c s h = Outcome.panic m s') ↔ (s.files h).ref < 1) ∧
    (∀ m s', filedup s h = Outcome.panic m s' →
      m = PanicMsg.filedup ∧ s'.files = s.files ∧ s'.pipes = s.pipes ∧ s'.inodes = s.inodes) ∧
    (∀ m s', fileclose c s h = Outcome.panic m s' →
      m = PanicMsg.fileclose ∧ s'.files = s.files ∧ s'.pipes = s.pipes ∧
        s'.inodes = s.inodes) ∧
    ((s.files h).ref = 0 → ∀ v s', fileclose c s h ≠ Outcome.ret v s') := by
  have hdup_lt : (s.files h).ref < 1 →
      filedup s h = Outcome.panic PanicMsg.filedup (s.emit Event.acquire_ftable) := by
    intro hlt
    unfold filedup
    simp only [emit_files, hlt, if_true]
  have hclose_lt : (s.files h).ref < 1 →
      fileclose c s h = Outcome.panic PanicMsg.fileclose (s.emit Event.acquire_ftable) := by
    intro hlt
    unfold fileclose
    rw [fileclose_phase1_panic s h hlt]
  have hclose_ge : 1 ≤ (s.files h).ref → ∀ m s', fileclose c s h ≠ Outcome.panic m s' := by
    intro hge m s' he
    by_cases hc : (s.files h).ref = 1 ∨ should_delete s h
    · unfold fileclose at he
      rw [fileclose_phase1_freed s h hge hc] at he
      exact fileclose_phase2_no_panic c _ _ m s' he
    · unfold fileclose at he
      rw [fileclose_phase1_kept s h hge (fun e => hc (Or.inl e)) (fun e => hc (Or.inr e))] at he
      cases he
  refine ⟨⟨?_, fun hlt => ⟨_, _, hdup_lt hlt⟩⟩, ⟨?_, fun hlt => ⟨_, _, hclose_lt hlt⟩⟩, ?_, ?_, ?_⟩
  · rintro ⟨m, s', he⟩
    by_contra hge
    rw [filedup_eq s h (by omega)] at he
    cases he
  · rintro ⟨m, s', he⟩
    by_contra hge
    exact hclose_ge (by omega) m s' he
  · intro m s' he
    by_cases hlt : (s.files h).ref < 1
    · rw [hdup_lt hlt] at he
      cases he
      exact ⟨rfl, rfl, rfl, rfl⟩
    · rw [filedup_eq s h (by omega)] at he
      cases he
  · intro m s' he
    by_cases hlt : (s.files h).ref < 1
    · rw [hclose_lt hlt] at he
      cases he
      exact ⟨rfl, rfl, rfl, rfl⟩
    · exact absurd he (hclose_ge (by omega) m s')
  · intro h0 v s' he
    rw [hclose_lt (by omega)] at he
    cases he

/-- C10: `fileread` on a handle whose `readable` is 0 and `filewrite` on a
handle whose `writable` is 0 return `-EBADF`, whatever the kind of the handle,
the length and the loop budget; the state returned is the state at entry, so no
event was issued and neither the offset nor anything else changed. -/
theorem ebadf_without_effect (c : Config) (s : State) (f : Nat) (addr n : Int) (fuel : Nat) :
    ((s.files f).readable = 0 → fileread c s f addr n = Outcome.ret (-c.EBADF) s) ∧
    ((s.files f).writable = 0 → filewrite c fuel s f addr n = Outcome.ret (-c.EBADF) s) := by
  constructor
  · intro h
    unfold fileread
    simp only [h, if_true]
  · intro h
    unfold filewrite
    simp only [h, if_true]

/-- Witness for C10: an inode handle with both flags 0. -/
theorem ebadf_without_effect_witness :
    fileread cfg0
        { files := fun _ => { type := FdType.FD_INODE, ref := 1, readable := 0, writable := 0,
                              pipe := 0, ip := 0, off := 7 },
          pipes := fun _ => { readopen := 0, writeopen := 0 },
          inodes := fun _ => { read_file := none, write_file := none },
          trace := [] } 0 0 100 =
      Outcome.ret (-9)
        { files := fun _ => { type := FdType.FD_INODE, ref := 1, readable := 0, writable := 0,
                              pipe := 0, ip := 0, off := 7 },
          pipes := fun _ => { readopen := 0, writeopen := 0 },
          inodes := fun _ => { read_file := none, write_file := none },
          trace := [] } :=
  (ebadf_without_effect cfg0 _ 0 0 100 0).1 rfl

/-! ## fileclose: the endpoint counters of a FIFO -/

theorem fileclose_phase1_ret (s : State) (h : Nat) (hr : 1 ≤ (s.files h).ref) :
    ∃ v s', fileclose_phase1 s h = Outcome.ret v s' ∧
      s'.pipes = (fileclose_fifo (s.emit Event.acquire_ftable) h).1.pipes ∧
      s'.trace = (fileclose_fifo (s.emit Event.acquire_ftable) h).1.trace ++
        [Event.release_ftable] ∧
      s'.inodes = s.inodes ∧
      (∀ g, g ≠ h → s'.files g = s.files g) ∧
      (s' = close_kept s h ∨ s' = close_freed s h) := by
  by_cases hc : (s.files h).ref = 1 ∨ should_delete s h
  · refine ⟨_, _, fileclose_phase1_freed s h hr hc, rfl, rfl, ?_, ?_, Or.inr rfl⟩
    · simp [close_freed, fileclose_fifo_inodes]
    · intro g hg
      simp [close_freed, fileclose_fifo_files, upd_other _ _ _ _ hg]
  · refine ⟨_, _, fileclose_phase1_kept s h hr (fun e => hc (Or.inl e))
      (fun e => hc (Or.inr e)), rfl, rfl, ?_, ?_, Or.inl rfl⟩
    · simp [close_kept, fileclose_fifo_inodes]
    · intro g hg
      simp [close_kept, fileclose_fifo_files, upd_other _ _ _ _ hg]

theorem fileclose_counters_writable (pid : Nat) (w : Int) (p : pipe) (hw : w ≠ 0) :
    (fileclose_counters pid w p).1.writeopen = max (p.writeopen - 1) 0 ∧
    (fileclose_counters pid w p).1.readopen = p.readopen ∧
    (fileclose_counters pid w p).2 =
      if max (p.writeopen - 1) 0 = 0 then [Event.wakeup_nread pid] else [] := by
  unfold fileclose_counters
  simp only [hw, ne_eq, not_false_eq_true, if_true]
  by_cases h : p.writeopen - 1 ≤ 0
  · have hm : max (p.writeopen - 1) 0 = 0 := max_eq_right h
    simp [h, hm]
  · have hm : max (p.writeopen - 1) 0 = p.writeopen - 1 := max_eq_left (by omega)
    have hne : ¬ (p.writeopen - 1 = 0) := by omega
    simp [h, hm, hne]

theorem fileclose_counters_not_writable (pid : Nat) (w : Int) (p : pipe) (hw : w = 0) :
    (fileclose_counters pid w p).1.readopen = max (p.readopen - 1) 0 ∧
    (fileclose_counters pid w p).1.writeopen = p.writeopen ∧
    (fileclose_counters pid w p).2 =
      if max (p.readopen - 1) 0 = 0 then [Event.wakeup_nwrite pid] else [] := by
  subst hw
  unfold fileclose_counters
  simp only [ne_eq, not_true_eq_false, if_false]
  by_cases h : p.readopen - 1 ≤ 0
  · have hm : max (p.readopen - 1) 0 = 0 := max_eq_right h
    simp [h, hm]
  · have hm : max (p.readopen - 1) 0 = p.readopen - 1 := max_eq_left (by omega)
    have hne : ¬ (p.readopen - 1 = 0) := by omega
    simp [h, hm, hne]

theorem fileclose_phase1_counters (s : State) (h : Nat) (hr : 1 ≤ (s.files h).ref)
    (hf : (s.files h).type = FdType.FD_FIFO) :
    ∃ v s', fileclose_phase1 s h = Outcome.ret v s' ∧
      ((s.files h).writable ≠ 0 →
        (s'.pipes (s.files h).pipe).writeopen =
            max ((s.pipes (s.files h).pipe).writeopen - 1) 0 ∧
        (s'.pipes (s.files h).pipe).readopen = (s.pipes (s.files h).pipe).readopen ∧
        s'.trace = s.trace ++
          ([Event.acquire_ftable, Event.acquire_pipe (s.files h).pipe] ++
           (if (s'.pipes (s.files h).pipe).writeopen = 0
              then [Event.wakeup_nread (s.files h).pipe] else []) ++
           [Event.release_pipe (s.files h).pipe, Event.release_ftable])) ∧
      ((s.files h).writable = 0 →
        (s'.pipes (s.files h).pipe).readopen =
            max ((s.pipes (s.files h).pipe).readopen - 1) 0 ∧
        (s'.pipes (s.files h).pipe).writeopen = (s.pipes (s.files h).pipe).writeopen ∧
        s'.trace = s.trace ++
          ([Event.acquire_ftable, Event.acquire_pipe (s.files h).pipe] ++
           (if (s'.pipes (s.files h).pipe).readopen = 0
              then [Event.wakeup_nwrite (s.files h).pipe] else []) ++
           [Event.release_pipe (s.files h).pipe, Event.release_ftable])) ∧
      (∀ q, q ≠ (s.files h).pipe → s'.pipes q = s.pipes q) := by
  obtain ⟨v, s', he, hp, htr, _, _, _⟩ := fileclose_phase1_ret s h hr
  have hf2 : ((s.emit Event.acquire_ftable).files h).type = FdType.FD_FIFO := hf
  rw [fileclose_fifo_pipes _ _ hf2] at hp
  rw [fileclose_fifo_trace _ _ hf2] at htr
  simp only [emit_files, emit_pipes, emit_trace] at hp htr
  have hpa : pipe_after_close (s.emit Event.acquire_ftable) h = pipe_after_close s h := rfl
  have hwa : wakeups_of_close (s.emit Event.acquire_ftable) h = wakeups_of_close s h := rfl
  rw [hpa] at hp
  rw [hwa] at htr
  refine ⟨v, s', he, ?_, ?_, ?_⟩
  · intro hw
    obtain ⟨h1, h2, h3⟩ := fileclose_counters_writable (s.files h).pipe (s.files h).writable
      (s.pipes (s.files h).pipe) hw
    have hq : s'.pipes (s.files h).pipe = pipe_after_close s h := by rw [hp]; simp
    rw [hq]
    refine ⟨h1, h2, ?_⟩
    rw [htr]
    unfold wakeups_of_close
    rw [h3]
    unfold pipe_after_close
    rw [h1]
    simp
  · intro hw
    obtain ⟨h1, h2, h3⟩ := fileclose_counters_not_writable (s.files h).pipe (s.files h).writable
      (s.pipes (s.files h).pipe) hw
    have hq : s'.pipes (s.files h).pipe = pipe_after_close s h := by rw [hp]; simp
    rw [hq]
    refine ⟨h1, h2, ?_⟩
    rw [htr]
    unfold wakeups_of_close
    rw [h3]
    unfold pipe_after_close
    rw [h1]
    simp
  · intro q hq
    rw [hp]
    exact upd_other _ _ _ _ hq

/-- C8 (amended): for a FIFO handle `h` with `ref >= 1` the part of `fileclose`
under the table lock returns, and: if `h` is writable, `writeopen` becomes
`max(writeopen-1, 0)` and `wakeup(&p->nread)` is among the events issued exactly
when that is 0; if `h` is writable and not readable, `readopen` is unchanged and
no other wakeup is issued; if `h` is not writable, `writeopen` is unchanged; if
`h` is readable and not writable, `readopen` becomes `max(readopen-1, 0)` and
`wakeup(&p->nwrite)` is issued exactly when that is 0, with no other wakeup.  No
other pipe changes.  Nothing is said about `readopen` for a handle that has both
flags or neither. -/
theorem fileclose_counters_by_writable (s : State) (h : Nat) (hr : 1 ≤ (s.files h).ref)
    (hf : (s.files h).type = FdType.FD_FIFO) :
    ∃ v s', fileclose_phase1 s h = Outcome.ret v s' ∧
      ((s.files h).writable ≠ 0 →
        (s'.pipes (s.files h).pipe).writeopen =
            max ((s.pipes (s.files h).pipe).writeopen - 1) 0 ∧
        ∃ evs, s'.trace = s.trace ++ evs ∧
          (Event.wakeup_nread (s.files h).pipe ∈ evs ↔
            (s'.pipes (s.files h).pipe).writeopen = 0)) ∧
      ((s.files h).writable ≠ 0 → (s.files h).readable = 0 →
        (s'.pipes (s.files h).pipe).readopen = (s.pipes (s.files h).pipe).readopen ∧
        s'.trace = s.trace ++
          ([Event.acquire_ftable, Event.acquire_pipe (s.files h).pipe] ++
           (if (s'.pipes (s.files h).pipe).writeopen = 0
              then [Event.wakeup_nread (s.files h).pipe] else []) ++
           [Event.release_pipe (s.files h).pipe, Event.release_ftable])) ∧
      ((s.files h).writable = 0 →
        (s'.pipes (s.files h).pipe).writeopen = (s.pipes (s.files h).pipe).writeopen) ∧
      ((s.files h).writable = 0 → (s.files h).readable ≠ 0 →
        (s'.pipes (s.files h).pipe).readopen =
            max ((s.pipes (s.files h).pipe).readopen - 1) 0 ∧
        s'.trace = s.trace ++
          ([Event.acquire_ftable, Event.acquire_pipe (s.files h).pipe] ++
           (if (s'.pipes (s.files h).pipe).readopen = 0
              then [Event.wakeup_nwrite (s.files h).pipe] else []) ++
           [Event.release_pipe (s.files h).pipe, Event.release_ftable])) ∧
      (∀ q, q ≠ (s.files h).pipe → s'.pipes q = s.pipes q) := by
  obtain ⟨v, s', he, hw, hnw, hoth⟩ := fileclose_phase1_counters s h hr hf
  refine ⟨v, s', he, ?_, ?_, ?_, ?_, hoth⟩
  · intro hwr
    obtain ⟨h1, _, h3⟩ := hw hwr
    refine ⟨h1, _, h3, ?_⟩
    by_cases h0 : (s'.pipes (s.files h).pipe).writeopen = 0
    · simp [h0]
    · simp [h0]
  · intro hwr _
    exact ⟨(hw hwr).2.1, (hw hwr).2.2⟩
  · intro hwr
    exact (hnw hwr).2.1
  · intro hwr _
    exact ⟨(hnw hwr).1, (hnw hwr).2.2⟩

/-- Witness for C8: the last write end of a FIFO is closed. -/
theorem fileclose_counters_by_writable_witness :
    ∃ v s', fileclose_phase1 (st_fifo 1 0 1 1 1) 0 = Outcome.ret v s' ∧
      (s'.pipes 0).writeopen = 0 ∧ (s'.pipes 0).readopen = 1 := by
  obtain ⟨v, s', he, hw, hwo, _⟩ :=
    fileclose_counters_by_writable (st_fifo 1 0 1 1 1) 0 (by decide) rfl
  have h1 := (hw (by decide)).1
  have h2 := (hwo (by decide) rfl).1
  exact ⟨v, s', he, by simpa [st_fifo] using h1, by simpa [st_fifo] using h2⟩

/-- Counterexample to C8 as stated: a FIFO handle with `ref = 2` that is both
readable and writable, on a pipe with `readopen = writeopen = 2`.  The claim
asks for `readopen = max(2-1, 0) = 1` afterwards; the code leaves it at 2. -/
theorem fileclose_counters_readable_cex :
    ((st_fifo 2 1 1 2 2).files 0).type = FdType.FD_FIFO ∧
    1 ≤ ((st_fifo 2 1 1 2 2).files 0).ref ∧
    ((st_fifo 2 1 1 2 2).files 0).readable ≠ 0 ∧
    ∃ v s', fileclose_phase1 (st_fifo 2 1 1 2 2) 0 = Outcome.ret v s' ∧
      (s'.pipes 0).readopen = 2 ∧
      (s'.pipes 0).readopen ≠ max (((st_fifo 2 1 1 2 2).pipes 0).readopen - 1) 0 := by
  refine ⟨rfl, by decide, by decide, none, close_kept (st_fifo 2 1 1 2 2) 0, ?_, ?_, ?_⟩
  · apply fileclose_phase1_kept
    · decide
    · decide
    · decide
  · decide
  · decide

/-! ## The pool invariant -/

theorem pool_inv_phase1 (c : Config) (s : State) (hinv : pool_inv c s) (h : Nat)
    (hr : 1 ≤ (s.files h).ref) :
    ∃ v s', fileclose_phase1 s h = Outcome.ret v s' ∧ pool_inv c s' ∧
      (v = none ∨ v = some { s.files h with ref := (s.files h).ref - 1 }) := by
  by_cases hc : (s.files h).ref = 1 ∨ should_delete s h
  · refine ⟨_, _, fileclose_phase1_freed s h hr hc, ?_, Or.inr rfl⟩
    intro g hg
    by_cases hgh : g = h
    · subst hgh
      simp [close_freed]
    · have : (close_freed s h).files g = s.files g := by
        simp [close_freed, fileclose_fifo_files, upd_other _ _ _ _ hgh]
      rw [this]
      exact hinv g hg
  · have h1 : (s.files h).ref ≠ 1 := fun e => hc (Or.inl e)
    refine ⟨_, _, fileclose_phase1_kept s h hr h1 (fun e => hc (Or.inr e)), ?_, Or.inl rfl⟩
    intro g hg
    by_cases hgh : g = h
    · subst hgh
      have hne : (s.files g).ref ≠ 0 := by omega
      have hty : (s.files g).type ≠ FdType.FD_NONE := fun e => hne ((hinv g hg).2 e)
      have hne2 : ¬ ((s.files g).ref - 1 = 0) := by omega
      simp [close_kept, hne2, hty]
    · have : (close_kept s h).files g = s.files g := by
        simp [close_kept, fileclose_fifo_files, upd_other _ _ _ _ hgh]
      rw [this]
      exact hinv g hg

/-- C9 (amended): if `ref == 0 <-> kind == FD_NONE` holds in every table slot,
then (a) it holds in every slot after `filedup` of a handle with `ref >= 1`;
(b) it holds in every slot after the part of `fileclose` under the table lock,
for a handle with `ref >= 1`; (c) it holds in every slot after the whole of
`fileclose` when the handle is not a FIFO; (d) after `filealloc` it holds in
every slot except the one returned, which has `ref = 1` and still the kind
`FD_NONE`, the kind being left to the caller to assign. -/
theorem pool_inv_preserved (c : Config) (s : State) (hinv : pool_inv c s) :
    (∀ h, 1 ≤ (s.files h).ref → ∃ s', filedup s h = Outcome.ret h s' ∧ pool_inv c s') ∧
    (∀ h, 1 ≤ (s.files h).ref →
      ∃ v s', fileclose_phase1 s h = Outcome.ret v s' ∧ pool_inv c s') ∧
    (∀ h, 1 ≤ (s.files h).ref → (s.files h).type ≠ FdType.FD_FIFO →
      ∃ s', fileclose c s h = Outcome.ret () s' ∧ pool_inv c s') ∧
    (∃ r s', filealloc c s = Outcome.ret r s' ∧
      (∀ j, j < c.NFILE → r ≠ some j → slot_inv s' j) ∧
      (∀ f, r = some f →
        f < c.NFILE ∧ (s'.files f).ref = 1 ∧ (s'.files f).type = FdType.FD_NONE)) := by
  refine ⟨?_, ?_, ?_, ?_⟩
  · intro h hr
    obtain ⟨s', he, href, hty, _, _, _, _, _, hoth, _⟩ := filedup_spec s h hr
    refine ⟨s', he, ?_⟩
    intro g hg
    by_cases hgh : g = h
    · subst hgh
      have hne : (s.files g).ref ≠ 0 := by omega
      have hty2 : (s.files g).type ≠ FdType.FD_NONE := fun e => hne ((hinv g hg).2 e)
      rw [href, hty]
      constructor
      · intro h0; omega
      · intro h0; exact absurd h0 hty2
    · rw [hoth g hgh]
      exact hinv g hg
  · intro h hr
    obtain ⟨v, s', he, hi, _⟩ := pool_inv_phase1 c s hinv h hr
    exact ⟨v, s', he, hi⟩
  · intro h hr hnf
    obtain ⟨v, s1, he, hi, hv⟩ := pool_inv_phase1 c s hinv h hr
    rcases hv with hv | hv
    · subst hv
      refine ⟨s1, ?_, hi⟩
      unfold fileclose
      rw [he]
    · subst hv
      obtain ⟨s2, he2, hfiles, _⟩ := fileclose_phase2_not_fifo c s1
        { s.files h with ref := (s.files h).ref - 1 } hnf
      refine ⟨s2, ?_, ?_⟩
      · unfold fileclose
        rw [he]
        exact he2
      · intro g hg
        rw [hfiles]
        exact hi g hg
  · obtain ⟨r, s', he, hsome, hupd, _, hnone, _, _⟩ := filealloc_spec c s
    refine ⟨r, s', he, ?_, ?_⟩
    · intro j hj hne
      unfold slot_inv
      cases hr : r with
      | none =>
        rw [hnone hr]
        exact hinv j hj
      | some f =>
        have hjf : j ≠ f := by
          rintro rfl
          exact hne hr
        rw [hupd f hr, upd_other _ _ _ _ hjf]
        exact hinv j hj
    · intro f hr
      obtain ⟨hlt, h0, _⟩ := (hsome f).1 hr
      rw [hupd f hr]
      simp only [upd_same, true_and]
      exact ⟨hlt, (hinv f hlt).1 h0⟩

/-- Witness for C9: the table of three unused slots. -/
theorem pool_inv_preserved_witness :
    ∃ r s', filealloc cfg0 st_empty = Outcome.ret r s' ∧
      (∀ j, j < cfg0.NFILE → r ≠ some j → slot_inv s' j) ∧
      (∀ f, r = some f →
        f < cfg0.NFILE ∧ (s'.files f).ref = 1 ∧ (s'.files f).type = FdType.FD_NONE) :=
  (pool_inv_preserved cfg0 st_empty (fun _ _ => ⟨fun _ => rfl, fun _ => rfl⟩)).2.2.2

/-- Counterexample to C9 as stated: on a table of three unused slots, where the
invariant holds, `filealloc` returns slot 0 with `ref = 1` and kind `FD_NONE`,
so the invariant fails afterwards. -/
theorem pool_inv_filealloc_cex :
    pool_inv cfg0 st_empty ∧
    ∃ r s', filealloc cfg0 st_empty = Outcome.ret r s' ∧ ¬ pool_inv cfg0 s' := by
  refine ⟨fun _ _ => ⟨fun _ => rfl, fun _ => rfl⟩, some 0, _, rfl, ?_⟩
  intro h
  have h0 := (h 0 (by decide)).2 rfl
  revert h0
  decide

/-! ## filewrite: the chunk loop -/

theorem State.eq_of_fields {s t : State} (h1 : s.files = t.files) (h2 : s.pipes = t.pipes)
    (h3 : s.inodes = t.inodes) (h4 : s.trace = t.trace) : s = t := by
  cases s
  cases t
  simp only [State.mk.injEq]
  exact ⟨h1, h2, h3, h4⟩

theorem upd_self {α : Type} (m : Nat → α) (a : Nat) : upd m a (m a) = m := by
  funext x
  by_cases h : x = a
  · subst h; simp
  · exact upd_other _ _ _ _ h

theorem chunk_size_eq_min (a b : Int) : (if a > b then b else a) = min a b := by
  split <;> omega

theorem filewrite_loop_done (c : Config) (f : Nat) (addr n : Int) (fuel k : Nat) (i : Int)
    (s : State) (hi : ¬ i < n) :
    filewrite_loop c f addr n fuel k i s =
      Outcome.ret (if i = n then n else -c.EIO_errno) s := by
  cases fuel <;> simp only [filewrite_loop, hi, if_false]

theorem filewrite_loop_step (c : Config) (f : Nat) (addr n : Int) (fuel k : Nat) (i : Int)
    (s : State) (hi : i < n) :
    filewrite_loop c f addr n (fuel + 1) k i s =
      if c.writei k (s.files f).ip (addr + i) (wrap32 (s.files f).off) (min (n - i) (maxChunkBytes c)) < 0
      then Outcome.ret (-c.EIO_errno) (after_chunk c s f addr n k i)
      else if c.writei k (s.files f).ip (addr + i) (wrap32 (s.files f).off)
          (min (n - i) (maxChunkBytes c)) ≠ min (n - i) (maxChunkBytes c)
      then Outcome.panic PanicMsg.short_filewrite (after_chunk c s f addr n k i)
      else filewrite_loop c f addr n fuel (k + 1)
        (i + c.writei k (s.files f).ip (addr + i) (wrap32 (s.files f).off)
          (min (n - i) (maxChunkBytes c))) (after_chunk c s f addr n k i) := by
  have hne : ¬ i = n := by omega
  rw [filewrite_loop]
  simp only [hi, if_true, hne, if_false, chunk_size_eq_min, emit_files]
  rfl

theorem wrap32_lt (x : Nat) : wrap32 x < 4294967296 := by
  unfold wrap32
  omega

theorem wrap32_of_lt (x : Nat) (h : x < 4294967296) : wrap32 x = x := by
  unfold wrap32
  omega

theorem wrap32_add_left (x y : Nat) : wrap32 (wrap32 x + y) = wrap32 (x + y) := by
  unfold wrap32
  omega

theorem off_after_zero (c : Config) (o : Nat) : off_after c o 0 = o := by
  simp [off_after]

theorem wrap32_off_after (c : Config) (o j : Nat) :
    wrap32 (off_after c o j) = chunk_off c o j := by
  unfold off_after chunk_off
  by_cases hj : j = 0
  · simp [hj]
  · rw [if_neg hj]
    unfold wrap32
    omega

theorem off_after_succ (c : Config) (o j : Nat) :
    off_after c o (j + 1) = wrap32 (off_after c o j + (maxChunkBytes c).toNat) := by
  have hexp : o + (j + 1) * (maxChunkBytes c).toNat =
      o + j * (maxChunkBytes c).toNat + (maxChunkBytes c).toNat := by
    rw [Nat.succ_mul]
    omega
  unfold off_after
  rw [if_neg (Nat.succ_ne_zero j), hexp]
  by_cases hj : j = 0
  · simp [hj]
  · rw [if_neg hj, wrap32_add_left]

theorem off_after_add (c : Config) (o j d : Nat) :
    wrap32 (off_after c o j + d) = wrap32 (o + j * (maxChunkBytes c).toNat + d) := by
  rw [← wrap32_add_left (off_after c o j) d, wrap32_off_after]
  unfold chunk_off
  rw [wrap32_add_left]

theorem off_after_of_lt (c : Config) (o j : Nat)
    (h : o + j * (maxChunkBytes c).toNat < 4294967296) :
    off_after c o j = o + j * (maxChunkBytes c).toNat := by
  unfold off_after
  by_cases hj : j = 0
  · simp [hj]
  · rw [if_neg hj, wrap32_of_lt _ h]

theorem chunk_off_of_lt (c : Config) (o k : Nat)
    (h : o + k * (maxChunkBytes c).toNat < 4294967296) :
    chunk_off c o k = o + k * (maxChunkBytes c).toNat :=
  wrap32_of_lt _ h

theorem after_chunk_files (c : Config) (s : State) (f : Nat) (addr n : Int) (k : Nat) (i : Int) :
    (after_chunk c s f addr n k i).files =
      if c.writei k (s.files f).ip (addr + i) (wrap32 (s.files f).off)
          (min (n - i) (maxChunkBytes c)) > 0
      then upd s.files f { s.files f with
        off := wrap32 ((s.files f).off +
          (c.writei k (s.files f).ip (addr + i) (wrap32 (s.files f).off)
            (min (n - i) (maxChunkBytes c))).toNat) }
      else s.files := by
  unfold after_chunk
  simp only [emit_files]
  split <;> rfl

theorem after_chunk_pipes (c : Config) (s : State) (f : Nat) (addr n : Int) (k : Nat) (i : Int) :
    (after_chunk c s f addr n k i).pipes = s.pipes := by
  unfold after_chunk
  simp only [emit_files, emit_pipes]
  split <;> rfl

theorem after_chunk_inodes (c : Config) (s : State) (f : Nat) (addr n : Int) (k : Nat) (i : Int) :
    (after_chunk c s f addr n k i).inodes = s.inodes := by
  unfold after_chunk
  simp only [emit_files, emit_inodes]
  split <;> rfl

theorem after_chunk_trace (c : Config) (s : State) (f : Nat) (addr n : Int) (k : Nat) (i : Int) :
    (after_chunk c s f addr n k i).trace =
      s.trace ++ txn_events (s.files f).ip (addr + i) (wrap32 (s.files f).off)
        (min (n - i) (maxChunkBytes c))
        (c.writei k (s.files f).ip (addr + i) (wrap32 (s.files f).off) (min (n - i) (maxChunkBytes c))) := by
  unfold after_chunk
  simp only [emit_files, emit_trace]
  split <;> simp [txn_events]

theorem after_chunks_zero (c : Config) (s : State) (f : Nat) (addr n : Int) :
    after_chunks c s f addr n 0 = s := by
  apply State.eq_of_fields
  · simp only [after_chunks, off_after_zero]
    exact upd_self _ _
  · rfl
  · rfl
  · simp [after_chunks, first_chunks]

theorem filewrite_loop_prefix (c : Config) (f : Nat) (addr n : Int) (s : State)
    (hmax : 0 < maxChunkBytes c) :
    ∀ j : Nat, (j : Int) * maxChunkBytes c ≤ n → chunks_ok c s f addr j →
      ∀ fuel, filewrite_loop c f addr n (fuel + j) 0 0 s =
        filewrite_loop c f addr n fuel j (j * maxChunkBytes c) (after_chunks c s f addr n j) := by
  intro j
  induction j with
  | zero =>
    intro _ _ fuel
    rw [after_chunks_zero]
    simp
  | succ j ih =>
    intro hle hok fuel
    have hexp : ((j + 1 : Nat) : Int) * maxChunkBytes c = j * maxChunkBytes c + maxChunkBytes c := by
      push_cast
      ring
    have hlt : (j : Int) * maxChunkBytes c < n := by omega
    have hmin : min (n - j * maxChunkBytes c) (maxChunkBytes c) = maxChunkBytes c := by omega
    have hfuel : fuel + (j + 1) = (fuel + 1) + j := by omega
    rw [hfuel, ih (by omega) (fun q hq => hok q (by omega)) (fuel + 1)]
    rw [filewrite_loop_step c f addr n fuel j _ _ hlt]
    have hip : ((after_chunks c s f addr n j).files f).ip = (s.files f).ip := by
      simp [after_chunks]
    have hoff : ((after_chunks c s f addr n j).files f).off = off_after c (s.files f).off j := by
      simp [after_chunks]
    have hr := hok j (by omega)
    have hnn : ¬ maxChunkBytes c < 0 := by omega
    simp only [hip, hoff, hmin, wrap32_off_after, hr, hnn, if_false, ne_eq, not_true_eq_false]
    rw [← hexp]
    congr 1
    apply State.eq_of_fields
    · rw [after_chunk_files]
      simp only [hip, hoff, hmin, wrap32_off_after, hr, gt_iff_lt, hmax, if_true]
      simp only [after_chunks, upd_upd, upd_same]
      rw [off_after_succ]
    · rw [after_chunk_pipes]; rfl
    · rw [after_chunk_inodes]; rfl
    · rw [after_chunk_trace]
      simp only [hip, hoff, hmin, wrap32_off_after, hr]
      simp only [after_chunks, first_chunks, chunk_events, hmin, List.append_assoc]

theorem filewrite_inode (c : Config) (fuel : Nat) (s : State) (f : Nat) (addr n : Int)
    (hw : (s.files f).writable ≠ 0) (ht : (s.files f).type = FdType.FD_INODE) :
    filewrite c fuel s f addr n = filewrite_loop c f addr n fuel 0 0 s := by
  unfold filewrite
  simp [hw, ht]

theorem filewrite_at_chunk (c : Config) (s : State) (f : Nat) (addr n : Int)
    (hw : (s.files f).writable ≠ 0) (ht : (s.files f).type = FdType.FD_INODE)
    (hmax : 0 < maxChunkBytes c) (k : Nat) (hk : (k : Int) * maxChunkBytes c < n)
    (hok : chunks_ok c s f addr k) (fuel : Nat) :
    ∃ S : State,
      S.trace = s.trace ++
        (first_chunks c (s.files f).ip addr (chunk_off c (s.files f).off) n k ++
          txn_events (s.files f).ip (addr + k * maxChunkBytes c) (chunk_off c (s.files f).off k)
            (min (n - k * maxChunkBytes c) (maxChunkBytes c)) (chunk_result c s f addr n k)) ∧
      S.files = upd s.files f { s.files f with
        off := if chunk_result c s f addr n k > 0
          then wrap32 (off_after c (s.files f).off k + (chunk_result c s f addr n k).toNat)
          else off_after c (s.files f).off k } ∧
      S.pipes = s.pipes ∧ S.inodes = s.inodes ∧
      filewrite c (fuel + 1 + k) s f addr n =
        if chunk_result c s f addr n k < 0 then Outcome.ret (-c.EIO_errno) S
        else if chunk_result c s f addr n k ≠ min (n - k * maxChunkBytes c) (maxChunkBytes c)
        then Outcome.panic PanicMsg.short_filewrite S
        else filewrite_loop c f addr n fuel (k + 1)
          (k * maxChunkBytes c + chunk_result c s f addr n k) S := by
  have hip : ((after_chunks c s f addr n k).files f).ip = (s.files f).ip := by
    simp [after_chunks]
  have hoff : ((after_chunks c s f addr n k).files f).off = off_after c (s.files f).off k := by
    simp [after_chunks]
  refine ⟨after_chunk c (after_chunks c s f addr n k) f addr n k (k * maxChunkBytes c),
    ?_, ?_, ?_, ?_, ?_⟩
  · rw [after_chunk_trace]
    simp only [hip, hoff, wrap32_off_after, chunk_result]
    simp only [after_chunks, List.append_assoc]
  · rw [after_chunk_files]
    simp only [hip, hoff, wrap32_off_after, chunk_result]
    split
    · simp only [after_chunks, upd_upd, upd_same]
    · simp only [after_chunks, upd_upd, upd_same]
  · rw [after_chunk_pipes]; rfl
  · rw [after_chunk_inodes]; rfl
  · rw [filewrite_inode c _ s f addr n hw ht,
      filewrite_loop_prefix c f addr n s hmax k (by omega) hok (fuel + 1),
      filewrite_loop_step c f addr n fuel k _ _ hk]
    simp only [hip, hoff, wrap32_off_after, chunk_result]

theorem lt_num_chunks_iff (c : Config) (n : Int) (k : Nat) (hmax : 0 < maxChunkBytes c) :
    k < num_chunks c n ↔ (k : Int) * maxChunkBytes c < n := by
  unfold num_chunks
  rw [Int.lt_toNat, Int.lt_iff_add_one_le, Int.le_ediv_iff_mul_le hmax]
  have : ((k : Int) + 1) * maxChunkBytes c = k * maxChunkBytes c + maxChunkBytes c := by ring
  omega

theorem cast_mul_toNat (k : Nat) (m : Int) (hm : 0 < m) : ((k * m.toNat : Nat) : Int) = k * m := by
  push_cast
  rw [Int.toNat_of_nonneg (le_of_lt hm)]

theorem count_begin_first_chunks (c : Config) (ip : Nat) (addr : Int) (offs : Nat → Nat)
    (n : Int) (j : Nat) : (first_chunks c ip addr offs n j).count Event.begin_trans = j := by
  induction j with
  | zero => rfl
  | succ j ih =>
    simp only [first_chunks, List.count_append, ih]
    simp [chunk_events, txn_events, List.count_cons]

theorem count_commit_first_chunks (c : Config) (ip : Nat) (addr : Int) (offs : Nat → Nat)
    (n : Int) (j : Nat) : (first_chunks c ip addr offs n j).count Event.commit_trans = j := by
  induction j with
  | zero => rfl
  | succ j ih =>
    simp only [first_chunks, List.count_append, ih]
    simp [chunk_events, txn_events, List.count_cons]

theorem first_chunks_congr (c : Config) (ip : Nat) (addr : Int) (offs offs2 : Nat → Nat)
    (n : Int) (j : Nat) (h : ∀ k, k < j → offs k = offs2 k) :
    first_chunks c ip addr offs n j = first_chunks c ip addr offs2 n j := by
  induction j with
  | zero => rfl
  | succ j ih =>
    simp only [first_chunks, chunk_events]
    rw [ih (fun k hk => h k (by omega)), h j (by omega)]

/-- C4 (amended): for a writable inode handle with offset `o`, `n >= 0` with
`o + n` below `2^32` (the offset is a 32-bit `uint`), a positive
`maxChunkBytes = ((LOGSIZE-1-1-2)/2)*512` and a `writei` that returns, at each
of the calls made, the size it was given, `filewrite` with a loop budget of at
least `ceil(n/max)` returns `n`; the events it issues are exactly the
transactions of the chunks `0 .. ceil(n/max)-1`, chunk `k` writing from
`addr + k*max` at offset `o + k*max` with size `min(n - k*max, max)`, which is
at least 1 and at most `max`; the offset ends at `o + n` and nothing else
changes. -/
theorem filewrite_chunked (c : Config) (s : State) (f : Nat) (addr n : Int) (fuel : Nat)
    (hw : (s.files f).writable ≠ 0) (ht : (s.files f).type = FdType.FD_INODE)
    (hn : 0 ≤ n) (hmax : 0 < maxChunkBytes c)
    (hnowrap : (s.files f).off + n.toNat < 4294967296)
    (hwi : ∀ k : Nat, k < num_chunks c n →
      c.writei k (s.files f).ip (addr + k * maxChunkBytes c)
        ((s.files f).off + k * (maxChunkBytes c).toNat)
        (min (n - k * maxChunkBytes c) (maxChunkBytes c)) =
          min (n - k * maxChunkBytes c) (maxChunkBytes c))
    (hfuel : num_chunks c n ≤ fuel) :
    ∃ s', filewrite c fuel s f addr n = Outcome.ret n s' ∧
      s'.trace = s.trace ++
        first_chunks c (s.files f).ip addr
          (fun k => (s.files f).off + k * (maxChunkBytes c).toNat) n (num_chunks c n) ∧
      (first_chunks c (s.files f).ip addr
        (fun k => (s.files f).off + k * (maxChunkBytes c).toNat) n (num_chunks c n)).count
        Event.begin_trans = num_chunks c n ∧
      (first_chunks c (s.files f).ip addr
        (fun k => (s.files f).off + k * (maxChunkBytes c).toNat) n (num_chunks c n)).count
        Event.commit_trans = num_chunks c n ∧
      (∀ k : Nat, k < num_chunks c n →
        1 ≤ min (n - k * maxChunkBytes c) (maxChunkBytes c) ∧
        min (n - k * maxChunkBytes c) (maxChunkBytes c) ≤ maxChunkBytes c) ∧
      s'.files = upd s.files f { s.files f with off := (s.files f).off + n.toNat } ∧
      s'.pipes = s.pipes ∧ s'.inodes = s.inodes ∧
      maxChunkBytes c = Int.tdiv (c.LOGSIZE - 1 - 1 - 2) 2 * 512 := by
  have hsizes : ∀ k : Nat, k < num_chunks c n →
      1 ≤ min (n - k * maxChunkBytes c) (maxChunkBytes c) ∧
      min (n - k * maxChunkBytes c) (maxChunkBytes c) ≤ maxChunkBytes c := by
    intro k hk
    have := (lt_num_chunks_iff c n k hmax).1 hk
    omega
  have hplain : ∀ k : Nat, k < num_chunks c n →
      chunk_off c (s.files f).off k = (s.files f).off + k * (maxChunkBytes c).toNat := by
    intro k hk
    have h1 := (lt_num_chunks_iff c n k hmax).1 hk
    have h2 := cast_mul_toNat k (maxChunkBytes c) hmax
    exact chunk_off_of_lt c _ k (by omega)
  by_cases hn0 : n = 0
  · have hm : num_chunks c n = 0 := by
      by_contra hne
      have := (lt_num_chunks_iff c n 0 hmax).1 (by omega)
      simp at this
      omega
    refine ⟨s, ?_, ?_, count_begin_first_chunks _ _ _ _ _ _, count_commit_first_chunks _ _ _ _ _ _,
      hsizes, ?_, rfl, rfl, rfl⟩
    · rw [filewrite_inode c _ s f addr n hw ht, filewrite_loop_done c f addr n fuel 0 0 s (by omega)]
      simp [hn0]
    · rw [hm]
      simp [first_chunks]
    · rw [hn0]
      simp only [Int.toNat_zero, Nat.add_zero]
      exact (upd_self _ _).symm
  · have hpos : 0 < num_chunks c n := by
      apply (lt_num_chunks_iff c n 0 hmax).2
      simp
      omega
    obtain ⟨k, hk⟩ : ∃ k, num_chunks c n = k + 1 := ⟨num_chunks c n - 1, by omega⟩
    have hklt : (k : Int) * maxChunkBytes c < n :=
      (lt_num_chunks_iff c n k hmax).1 (by omega)
    have hkge : ¬ ((k + 1 : Nat) : Int) * maxChunkBytes c < n := by
      intro hlt
      have := (lt_num_chunks_iff c n (k + 1) hmax).2 hlt
      omega
    have hexp : ((k + 1 : Nat) : Int) * maxChunkBytes c =
        k * maxChunkBytes c + maxChunkBytes c := by
      push_cast
      ring
    have hmin : min (n - k * maxChunkBytes c) (maxChunkBytes c) = n - k * maxChunkBytes c := by
      omega
    have hres : chunk_result c s f addr n k = n - k * maxChunkBytes c := by
      unfold chunk_result
      rw [hplain k (by omega), hwi k (by omega), hmin]
    have hok : chunks_ok c s f addr k := by
      intro q hq
      have hqlt : (q : Int) * maxChunkBytes c < n :=
        (lt_num_chunks_iff c n q hmax).1 (by omega)
      have hq1 : ((q + 1 : Nat) : Int) * maxChunkBytes c ≤ k * maxChunkBytes c := by
        have : ((q + 1 : Nat) : Int) ≤ (k : Int) := by omega
        exact Int.mul_le_mul_of_nonneg_right this (le_of_lt hmax)
      have hq2 : ((q + 1 : Nat) : Int) * maxChunkBytes c =
          q * maxChunkBytes c + maxChunkBytes c := by
        push_cast
        ring
      have hqmin : min (n - q * maxChunkBytes c) (maxChunkBytes c) = maxChunkBytes c := by
        omega
      have := hwi q (by omega)
      rw [hqmin] at this
      rw [hplain q (by omega)]
      exact this
    obtain ⟨fuel', hfuel'⟩ : ∃ fuel', fuel = fuel' + 1 + k := ⟨fuel - (k + 1), by omega⟩
    obtain ⟨S, htr, hfiles, hpipes, hinodes, hrun⟩ :=
      filewrite_at_chunk c s f addr n hw ht hmax k hklt hok fuel'
    have hnneg : ¬ (n - k * maxChunkBytes c < 0) := by omega
    have hgt : n - k * maxChunkBytes c > 0 := by omega
    rw [hres] at htr hfiles hrun
    rw [hmin] at hrun
    simp only [hnneg, if_false, ne_eq, not_true_eq_false] at hrun
    rw [filewrite_loop_done c f addr n fuel' (k + 1) _ S (by omega)] at hrun
    have hsum : k * maxChunkBytes c + (n - k * maxChunkBytes c) = n := by ring
    simp only [hsum, if_true] at hrun
    refine ⟨S, ?_, ?_, count_begin_first_chunks _ _ _ _ _ _, count_commit_first_chunks _ _ _ _ _ _,
      hsizes, ?_, hpipes, hinodes, rfl⟩
    · rw [hfuel']
      exact hrun
    · rw [htr, hk, ← first_chunks_congr c _ addr (chunk_off c (s.files f).off) _ n (k + 1)
        (fun q hq => hplain q (by omega))]
      simp only [first_chunks, chunk_events, hmin]
    · rw [hfiles]
      simp only [hgt, if_true]
      have hc := cast_mul_toNat k (maxChunkBytes c) hmax
      have harith : (s.files f).off + k * (maxChunkBytes c).toNat +
          (n - k * maxChunkBytes c).toNat = (s.files f).off + n.toNat := by
        omega
      rw [off_after_add, harith, wrap32_of_lt _ hnowrap]

/-- Witness for C4: 4000 bytes through an inode handle with `LOGSIZE = 10`,
hence chunks of at most 1536 bytes: three transactions. -/
theorem filewrite_chunked_witness :
    num_chunks cfg0 4000 = 3 ∧
    ∃ s', filewrite cfg0 3 (st_inode 1) 0 0 4000 = Outcome.ret 4000 s' ∧
      s'.trace = first_chunks cfg0 0 0 (fun k => 0 + k * (maxChunkBytes cfg0).toNat) 4000 3 ∧
      s'.files = upd (st_inode 1).files 0 { (st_inode 1).files 0 with off := 4000 } := by
  obtain ⟨s', h1, h2, _, _, _, h3, _⟩ := filewrite_chunked cfg0 (st_inode 1) 0 0 4000 3
    (by decide) rfl (by decide) (by decide) (by decide) (fun _ _ => rfl) (by decide)
  exact ⟨by decide, s', h1, h2, h3⟩

/-- Counterexample to C4 as stated: a write of 100 bytes, in one chunk that
`writei` writes in full, through a writable inode handle at offset `2^32 - 1`.
`filewrite` returns 100, and the claim asks for the offset `2^32 - 1 + 100`
afterwards; the 32-bit offset is 99. -/
theorem filewrite_offset_wraps_cex :
    ∃ s', filewrite cfg0 1 (st_inode_at 4294967295) 0 0 100 = Outcome.ret 100 s' ∧
      (s'.files 0).off = 99 ∧
      (s'.files 0).off ≠ ((st_inode_at 4294967295).files 0).off + 100 := by
  obtain ⟨s', _, hf, _, _, hr⟩ := filewrite_at_chunk cfg0 (st_inode_at 4294967295) 0 0 100
    (by decide) rfl (by decide) 0 (by decide) (fun q hq => by omega) 0
  have hres : chunk_result cfg0 (st_inode_at 4294967295) 0 0 100 0 = 100 := by decide
  have hmin : min ((100 : Int) - ((0 : Nat) : Int) * maxChunkBytes cfg0)
      (maxChunkBytes cfg0) = 100 := by decide
  rw [hres] at hr hf
  rw [hmin] at hr
  refine ⟨s', ?_, ?_, ?_⟩
  · rw [hr]
    simp [filewrite_loop]
  · rw [hf]
    decide
  · rw [hf]
    decide

/-- C5 (amended): for a writable inode handle with offset `o` and a positive
`maxChunkBytes`, if the chunks `0 .. j-1` are written in full, a chunk `j`
exists (`j*max < n`) and its `writei` returns a negative value, then
`filewrite` with a loop budget of at least `j+1` returns `-EIO`, a bare error
code that carries no count; exactly `j+1` transactions were begun and
committed, the last one being the failed chunk, and nothing follows; the
progress made shows in the offset of the handle, which was advanced by `max`
for each chunk written, as a 32-bit `uint`, and so ends at `o + j*max`, the sum
of the sizes of the chunks written, whenever `o + j*max` is below `2^32`. -/
theorem filewrite_error_after_chunks (c : Config) (s : State) (f : Nat) (addr n : Int)
    (fuel j : Nat)
    (hw : (s.files f).writable ≠ 0) (ht : (s.files f).type = FdType.FD_INODE)
    (hmax : 0 < maxChunkBytes c) (hj : (j : Int) * maxChunkBytes c < n)
    (hok : chunks_ok c s f addr j) (herr : chunk_result c s f addr n j < 0)
    (hfuel : j + 1 ≤ fuel) :
    ∃ s', filewrite c fuel s f addr n = Outcome.ret (-c.EIO_errno) s' ∧
      s'.trace = s.trace ++
        (first_chunks c (s.files f).ip addr (chunk_off c (s.files f).off) n j ++
          txn_events (s.files f).ip (addr + j * maxChunkBytes c) (chunk_off c (s.files f).off j)
            (min (n - j * maxChunkBytes c) (maxChunkBytes c)) (chunk_result c s f addr n j)) ∧
      (first_chunks c (s.files f).ip addr (chunk_off c (s.files f).off) n j ++
        txn_events (s.files f).ip (addr + j * maxChunkBytes c) (chunk_off c (s.files f).off j)
          (min (n - j * maxChunkBytes c) (maxChunkBytes c))
          (chunk_result c s f addr n j)).count Event.begin_trans = j + 1 ∧
      (first_chunks c (s.files f).ip addr (chunk_off c (s.files f).off) n j ++
        txn_events (s.files f).ip (addr + j * maxChunkBytes c) (chunk_off c (s.files f).off j)
          (min (n - j * maxChunkBytes c) (maxChunkBytes c))
          (chunk_result c s f addr n j)).count Event.commit_trans = j + 1 ∧
      s'.files = upd s.files f { s.files f with off := off_after c (s.files f).off j } ∧
      ((s.files f).off + j * (maxChunkBytes c).toNat < 4294967296 →
        s'.files = upd s.files f
          { s.files f with off := (s.files f).off + j * (maxChunkBytes c).toNat }) ∧
      s'.pipes = s.pipes ∧ s'.inodes = s.inodes := by
  obtain ⟨fuel', hfuel'⟩ : ∃ fuel', fuel = fuel' + 1 + j := ⟨fuel - (j + 1), by omega⟩
  obtain ⟨S, htr, hfiles, hpipes, hinodes, hrun⟩ :=
    filewrite_at_chunk c s f addr n hw ht hmax j hj hok fuel'
  have hngt : ¬ chunk_result c s f addr n j > 0 := by omega
  simp only [herr, if_true] at hrun
  simp only [hngt, if_false] at hfiles
  refine ⟨S, by rw [hfuel']; exact hrun, htr, ?_, ?_, hfiles, ?_, hpipes, hinodes⟩
  · rw [List.count_append, count_begin_first_chunks]
    simp [txn_events, List.count_cons]
  · rw [List.count_append, count_commit_first_chunks]
    simp [txn_events, List.count_cons]
  · intro hlt
    rw [hfiles, off_after_of_lt c _ j hlt]

/-- Witness for C5: a write of 3072 bytes whose second chunk fails. -/
theorem filewrite_error_after_chunks_witness :
    ∃ s', filewrite (cfg_err 1) 2 (st_inode 1) 0 0 3072 = Outcome.ret (-5) s' ∧
      (s'.files 0).off = 1536 := by
  obtain ⟨s', h1, _, _, _, _, h2, _⟩ := filewrite_error_after_chunks (cfg_err 1) (st_inode 1) 0 0
    3072 2 1 (by decide) rfl (by decide) (by decide)
    (fun q hq => by
      have hq0 : q = 0 := by omega
      subst hq0
      decide)
    (by decide) (by decide)
  exact ⟨s', h1, by rw [h2 (by decide)]; decide⟩

/-- Counterexample to C5 as stated: two writes of 3072 bytes through the same
handle, one failing at its first chunk (0 bytes transferred) and one at its
second (1536 bytes transferred, as the offsets show), return the same value
`-EIO = -5`: the value returned does not report the count transferred. -/
theorem filewrite_error_count_cex :
    ∃ sA sB,
      filewrite (cfg_err 0) 2 (st_inode 1) 0 0 3072 = Outcome.ret (-5) sA ∧
      filewrite (cfg_err 1) 2 (st_inode 1) 0 0 3072 = Outcome.ret (-5) sB ∧
      (sA.files 0).off = 0 ∧ (sB.files 0).off = 1536 := by
  obtain ⟨sA, _, hfA, _, _, hrA⟩ := filewrite_at_chunk (cfg_err 0) (st_inode 1) 0 0 3072
    (by decide) rfl (by decide) 0 (by decide) (fun q hq => by omega) 1
  obtain ⟨sB, _, hfB, _, _, hrB⟩ := filewrite_at_chunk (cfg_err 1) (st_inode 1) 0 0 3072
    (by decide) rfl (by decide) 1 (by decide)
    (fun q hq => by
      have hq0 : q = 0 := by omega
      subst hq0
      decide) 0
  have hresA : chunk_result (cfg_err 0) (st_inode 1) 0 0 3072 0 = -1 := by decide
  have hresB : chunk_result (cfg_err 1) (st_inode 1) 0 0 3072 1 = -1 := by decide
  rw [hresA] at hrA hfA
  rw [hresB] at hrB hfB
  refine ⟨sA, sB, hrA, hrB, ?_, ?_⟩
  · rw [hfA]; decide
  · rw [hfB]; decide

/-- C6 (amended): for a writable inode handle and a positive `maxChunkBytes`,
if the chunks `0 .. j-1` are written in full, a chunk `j` exists (so its size
is positive) and its `writei` returns 0, then `filewrite` with a loop budget of
at least `j+1` calls `panic("short filewrite")`, after the transaction of that
chunk was committed; it does not return.  The offset of the handle was advanced
by `max` for each chunk written, as a 32-bit `uint`, and is `o + j*max` whenever
that is below `2^32`. -/
theorem filewrite_zero_is_fatal (c : Config) (s : State) (f : Nat) (addr n : Int)
    (fuel j : Nat)
    (hw : (s.files f).writable ≠ 0) (ht : (s.files f).type = FdType.FD_INODE)
    (hmax : 0 < maxChunkBytes c) (hj : (j : Int) * maxChunkBytes c < n)
    (hok : chunks_ok c s f addr j) (hzero : chunk_result c s f addr n j = 0)
    (hfuel : j + 1 ≤ fuel) :
    0 < min (n - j * maxChunkBytes c) (maxChunkBytes c) ∧
    ∃ s', filewrite c fuel s f addr n = Outcome.panic PanicMsg.short_filewrite s' ∧
      s'.trace = s.trace ++
        (first_chunks c (s.files f).ip addr (chunk_off c (s.files f).off) n j ++
          txn_events (s.files f).ip (addr + j * maxChunkBytes c) (chunk_off c (s.files f).off j)
            (min (n - j * maxChunkBytes c) (maxChunkBytes c)) 0) ∧
      s'.files = upd s.files f { s.files f with off := off_after c (s.files f).off j } ∧
      ((s.files f).off + j * (maxChunkBytes c).toNat < 4294967296 →
        s'.files = upd s.files f
          { s.files f with off := (s.files f).off + j * (maxChunkBytes c).toNat }) ∧
      s'.pipes = s.pipes ∧ s'.inodes = s.inodes := by
  obtain ⟨fuel', hfuel'⟩ : ∃ fuel', fuel = fuel' + 1 + j := ⟨fuel - (j + 1), by omega⟩
  obtain ⟨S, htr, hfiles, hpipes, hinodes, hrun⟩ :=
    filewrite_at_chunk c s f addr n hw ht hmax j hj hok fuel'
  have hsize : 0 < min (n - j * maxChunkBytes c) (maxChunkBytes c) := by omega
  have hne : (0 : Int) ≠ min (n - j * maxChunkBytes c) (maxChunkBytes c) := by omega
  rw [hzero] at htr hfiles hrun
  simp only [lt_self_iff_false, if_false, hne, ne_eq, not_false_eq_true, if_true] at hrun
  simp only [gt_iff_lt, lt_self_iff_false, if_false] at hfiles
  refine ⟨hsize, S, by rw [hfuel']; exact hrun, htr, hfiles, ?_, hpipes, hinodes⟩
  intro hlt
  rw [hfiles, off_after_of_lt c _ j hlt]

/-- Witness for C6: a write of one byte whose `writei` returns 0. -/
theorem filewrite_zero_is_fatal_witness :
    ∃ s', filewrite cfg_zero 1 (st_inode 1) 0 0 1 =
      Outcome.panic PanicMsg.short_filewrite s' := by
  obtain ⟨_, s', h1, _⟩ := filewrite_zero_is_fatal cfg_zero (st_inode 1) 0 0 1 1 0
    (by decide) rfl (by decide) (by decide) (fun q hq => by omega) (by decide) (by decide)
  exact ⟨s', h1⟩

/-- Counterexample to C6 as stated: a write of 5 bytes through a writable inode
handle, in one chunk of size 5, whose `writei` returns 0.  Whatever the loop
budget, `filewrite` does not return (so it returns no `-EIO`); with a budget of
one iteration it calls `panic("short filewrite")`. -/
theorem filewrite_zero_cex :
    0 < min ((5 : Int) - 0) (maxChunkBytes cfg_zero) ∧
    (∀ fuel v s', filewrite cfg_zero fuel (st_inode 1) 0 0 5 ≠ Outcome.ret v s') ∧
    ∃ s', filewrite cfg_zero 1 (st_inode 1) 0 0 5 =
      Outcome.panic PanicMsg.short_filewrite s' := by
  have hrun : ∀ fuel, ∃ S, filewrite cfg_zero (fuel + 1 + 0) (st_inode 1) 0 0 5 =
      Outcome.panic PanicMsg.short_filewrite S := by
    intro fuel
    obtain ⟨S, _, _, _, _, hr⟩ := filewrite_at_chunk cfg_zero (st_inode 1) 0 0 5
      (by decide) rfl (by decide) 0 (by decide) (fun q hq => by omega) fuel
    have hres : chunk_result cfg_zero (st_inode 1) 0 0 5 0 = 0 := by decide
    have hmin : min ((5 : Int) - ((0 : Nat) : Int) * maxChunkBytes cfg_zero)
        (maxChunkBytes cfg_zero) = 5 := by decide
    rw [hres, hmin] at hr
    exact ⟨S, hr⟩
  refine ⟨by decide, ?_, hrun 0⟩
  intro fuel v s' he
  cases fuel with
  | zero =>
    rw [filewrite_inode cfg_zero 0 (st_inode 1) 0 0 5 (by decide) rfl] at he
    simp [filewrite_loop] at he
  | succ fuel =>
    obtain ⟨S, hS⟩ := hrun fuel
    rw [Nat.add_zero] at hS
    rw [hS] at he
    cases he

/-! ## fileclose: explicit end states -/

theorem close_freed_files (s : State) (h : Nat) :
    (close_freed s h).files =
      upd s.files h { s.files h with ref := 0, type := FdType.FD_NONE } := by
  simp [close_freed, fileclose_fifo_files]

theorem close_kept_files (s : State) (h : Nat) :
    (close_kept s h).files = upd s.files h { s.files h with ref := (s.files h).ref - 1 } := by
  simp [close_kept, fileclose_fifo_files]

theorem close_kept_inodes (s : State) (h : Nat) : (close_kept s h).inodes = s.inodes := by
  simp [close_kept, fileclose_fifo_inodes]

theorem close_freed_trace (s : State) (h : Nat) :
    (close_freed s h).trace = s.trace ++ phase1_events s h := by
  unfold close_freed phase1_events
  by_cases hf : (s.files h).type = FdType.FD_FIFO
  · simp only [emit_trace, setFile_trace]
    rw [fileclose_fifo_trace _ _ (by simpa using hf)]
    simp [wakeups_of_close, hf]
  · rw [fileclose_fifo_other _ _ (by simpa using hf)]
    simp [hf]

theorem close_kept_trace_eq (s : State) (h : Nat) :
    (close_kept s h).trace = s.trace ++ phase1_events s h := by
  unfold close_kept phase1_events
  by_cases hf : (s.files h).type = FdType.FD_FIFO
  · simp only [emit_trace, setFile_trace]
    rw [fileclose_fifo_trace _ _ (by simpa using hf)]
    simp [wakeups_of_close, hf]
  · rw [fileclose_fifo_other _ _ (by simpa using hf)]
    simp [hf]

theorem fileclose_kept_eq (c : Config) (s : State) (h : Nat) (hr : 1 ≤ (s.files h).ref)
    (hc : ¬ ((s.files h).ref = 1 ∨ should_delete s h)) :
    fileclose c s h = Outcome.ret () (close_kept s h) := by
  unfold fileclose
  rw [fileclose_phase1_kept s h hr (fun e => hc (Or.inl e)) (fun e => hc (Or.inr e))]

theorem fileclose_freed_eq (c : Config) (s : State) (h : Nat) (hr : 1 ≤ (s.files h).ref)
    (hc : (s.files h).ref = 1 ∨ should_delete s h) :
    fileclose c s h =
      fileclose_phase2 c (close_freed s h) { s.files h with ref := (s.files h).ref - 1 } := by
  unfold fileclose
  rw [fileclose_phase1_freed s h hr hc]

theorem fileclose_phase2_fifo (c : Config) (s : State) (ff : file) (rf wf : Nat)
    (ht : ff.type = FdType.FD_FIFO) (hr : (s.inodes ff.ip).read_file = some rf)
    (hw : (s.inodes ff.ip).write_file = some wf) :
    fileclose_phase2 c s ff = Outcome.ret () (teardown_fifo c s ff rf wf) := by
  unfold fileclose_phase2
  simp only [ht, if_true, emit_inodes, emit_files, hr, setFile_inodes, hw]
  congr 1
  apply State.eq_of_fields
  · simp [teardown_fifo]
  · simp [teardown_fifo]
  · simp only [emit_inodes, setInode_inodes, setFile_inodes, teardown_fifo, upd_upd, upd_same]
  · simp [teardown_fifo]

theorem fileclose_phase2_fifo_null (c : Config) (s : State) (ff : file)
    (ht : ff.type = FdType.FD_FIFO) (hr : (s.inodes ff.ip).read_file = none) :
    ∃ s', fileclose_phase2 c s ff = Outcome.nullderef s' ∧
      s'.trace = s.trace ++ [Event.pipeclose ff.pipe ff.writable, Event.ilock ff.ip] ∧
      s'.files = s.files ∧ s'.inodes = s.inodes := by
  unfold fileclose_phase2
  simp only [ht, if_true, emit_inodes, emit_files, hr]
  exact ⟨_, rfl, by simp, rfl, rfl⟩

theorem fileclose_phase2_fifo_null_write (c : Config) (s : State) (ff : file) (rf : Nat)
    (ht : ff.type = FdType.FD_FIFO) (hr : (s.inodes ff.ip).read_file = some rf)
    (hw : (s.inodes ff.ip).write_file = none) :
    ∃ s', fileclose_phase2 c s ff = Outcome.nullderef s' ∧
      s'.trace = s.trace ++ [Event.pipeclose ff.pipe ff.writable, Event.ilock ff.ip] ∧
      s'.inodes = s.inodes := by
  unfold fileclose_phase2
  simp only [ht, if_true, emit_inodes, emit_files, hr, setFile_inodes, hw]
  exact ⟨_, rfl, by simp, rfl⟩

/-! ## Closing the ends of a FIFO one after the other -/

theorem countP_change_one (l : List Nat) (p q : Nat → Bool) (f : Nat) (hnd : l.Nodup)
    (hf : f ∈ l) (hp : p f = true) (hq : q f = false) (hoth : ∀ j, j ≠ f → q j = p j) :
    l.countP q + 1 = l.countP p := by
  induction l with
  | nil => cases hf
  | cons a l ih =>
    rw [List.nodup_cons] at hnd
    by_cases ha : a = f
    · subst ha
      have hsame : l.countP q = l.countP p := by
        apply List.countP_congr
        intro x hx
        have hxa : x ≠ a := fun e => hnd.1 (e ▸ hx)
        rw [hoth x hxa]
      simp [List.countP_cons, hp, hq, hsame]
    · have hfl : f ∈ l := by
        rcases List.mem_cons.1 hf with h | h
        · exact absurd h.symm ha
        · exact h
      have := ih hnd.2 hfl
      simp only [List.countP_cons, hoth a ha]
      omega

theorem filealloc_when_free (c : Config) (s : State) (hpos : 0 < free_count c s) :
    ∃ f s1, filealloc c s = Outcome.ret (some f) s1 ∧ f < c.NFILE ∧ (s.files f).ref = 0 ∧
      s1.files = upd s.files f { s.files f with ref := 1 } ∧
      free_count c s1 + 1 = free_count c s := by
  obtain ⟨r, s1, he, hsome, hupd, hnone, _, _, _⟩ := filealloc_spec c s
  obtain ⟨j, hj, hj0⟩ := List.countP_pos_iff.1 hpos
  have hjlt : j < c.NFILE := List.mem_range.1 hj
  have hj0' : (s.files j).ref = 0 := by simpa using hj0
  cases hr : r with
  | none =>
    exact absurd hj0' ((hnone.1 hr) j hjlt)
  | some f =>
    obtain ⟨hlt, h0, _⟩ := (hsome f).1 hr
    refine ⟨f, s1, by rw [he, hr], hlt, h0, hupd f hr, ?_⟩
    unfold free_count
    apply countP_change_one _ _ _ f (List.nodup_range _) (List.mem_range.2 hlt)
    · simpa using h0
    · rw [hupd f hr]
      simp
    · intro g hg
      rw [hupd f hr, upd_other _ _ _ _ hg]

theorem filealloc_when_full (c : Config) (s : State) (hz : free_count c s = 0) :
    ∃ s1, filealloc c s = Outcome.ret none s1 ∧ s1.files = s.files := by
  obtain ⟨r, s1, he, _, _, hnone, hsame, _, _⟩ := filealloc_spec c s
  have hall : ∀ j, j < c.NFILE → (s.files j).ref ≠ 0 := by
    intro j hj
    have := (List.countP_eq_zero.1 hz) j (List.mem_range.2 hj)
    simpa using this
  have hr : r = none := hnone.2 hall
  exact ⟨s1, by rw [he, hr], hsame hr⟩

theorem filealloc_n_spec (c : Config) :
    ∀ (n : Nat) (s : State), n ≤ free_count c s →
      ∃ (fs : List Nat) (s' : State), filealloc_n c n s = (fs.map some, s') ∧ fs.length = n ∧ fs.Nodup ∧
        (∀ f, f ∈ fs → f < c.NFILE ∧ (s.files f).ref = 0 ∧ (s'.files f).ref = 1) ∧
        free_count c s' + n = free_count c s ∧
        (∀ g, (s.files g).ref ≠ 0 → s'.files g = s.files g) := by
  intro n
  induction n with
  | zero =>
    intro s _
    exact ⟨[], s, rfl, rfl, List.nodup_nil, fun f hf => absurd hf (List.not_mem_nil f), rfl,
      fun _ _ => rfl⟩
  | succ n ih =>
    intro s hn
    obtain ⟨f, s1, he, hlt, h0, hupd, hcnt⟩ := filealloc_when_free c s (by omega)
    obtain ⟨fs, s', hrun, hlen, hnd, hmem, hcnt', hframe⟩ := ih s1 (by omega)
    have hf1 : (s1.files f).ref = 1 := by rw [hupd]; simp
    have hfnot : f ∉ fs := by
      intro hin
      have := (hmem f hin).2.1
      omega
    have hs'f : s'.files f = s1.files f := hframe f (by omega)
    refine ⟨f :: fs, s', ?_, by simp [hlen], List.nodup_cons.2 ⟨hfnot, hnd⟩, ?_, by omega, ?_⟩
    · simp only [filealloc_n, he, hrun, List.map_cons]
    · intro g hg
      rcases List.mem_cons.1 hg with hgf | hgfs
      · subst hgf
        exact ⟨hlt, h0, by rw [hs'f, hf1]⟩
      · obtain ⟨h1, h2, h3⟩ := hmem g hgfs
        have hgf : g ≠ f := fun e => hfnot (e ▸ hgfs)
        rw [hupd, upd_other _ _ _ _ hgf] at h2
        exact ⟨h1, h2, h3⟩
    · intro g hg
      have hgf : g ≠ f := by
        rintro rfl
        exact hg h0
      have h1 : s1.files g = s.files g := by rw [hupd, upd_other _ _ _ _ hgf]
      rw [hframe g (by rw [h1]; exact hg), h1]

/-- C12: from a table with `m` free slots, for every `n <= m` the first `n` calls
of `filealloc` in a row all succeed, return pairwise distinct slots of the
table, each with `ref = 1` at the end, and leave `m - n` free slots (so each
call lowers the number of free slots by one); after `m` calls the next call
returns null and changes no slot. -/
theorem filealloc_successive (c : Config) (s : State) (m : Nat) (hm : free_count c s = m) :
    (∀ n, n ≤ m →
      ∃ (fs : List Nat) (s' : State), filealloc_n c n s = (fs.map some, s') ∧ fs.length = n ∧ fs.Nodup ∧
        (∀ f, f ∈ fs → f < c.NFILE ∧ (s'.files f).ref = 1) ∧
        free_count c s' = m - n) ∧
    (∃ s'', filealloc c (filealloc_n c m s).2 = Outcome.ret none s'' ∧
      s''.files = (filealloc_n c m s).2.files) := by
  constructor
  · intro n hn
    obtain ⟨fs, s', hrun, hlen, hnd, hmem, hcnt, _⟩ := filealloc_n_spec c n s (by omega)
    exact ⟨fs, s', hrun, hlen, hnd, fun f hf => ⟨(hmem f hf).1, (hmem f hf).2.2⟩, by omega⟩
  · obtain ⟨fs, s', hrun, _, _, _, hcnt, _⟩ := filealloc_n_spec c m s (by omega)
    rw [hrun]
    exact filealloc_when_full c s' (by omega)

/-- Witness for C12: a table of capacity 3 with all slots unused; two calls
yield two different slots with `ref = 1` and one free slot remains. -/
theorem filealloc_successive_witness :
    free_count cfg0 st_empty = 3 ∧
    ∃ (fs : List Nat) (s' : State), filealloc_n cfg0 2 st_empty = (fs.map some, s') ∧ fs.length = 2 ∧ fs.Nodup ∧
      (∀ f, f ∈ fs → f < cfg0.NFILE ∧ (s'.files f).ref = 1) ∧
      free_count cfg0 s' = 3 - 2 :=
  ⟨by decide, (filealloc_successive cfg0 st_empty 3 (by decide)).1 2 (by decide)⟩

/-! ## fileread -/

theorem ebadf_read (c : Config) (s : State) (f : Nat) (addr n : Int)
    (h : (s.files f).readable = 0) : fileread c s f addr n = Outcome.ret (-c.EBADF) s := by
  unfold fileread
  simp only [h, if_true]

theorem fileread_inode_eq (c : Config) (s : State) (f : Nat) (addr n : Int)
    (hr : (s.files f).readable ≠ 0) (ht : (s.files f).type = FdType.FD_INODE) :
    ∃ s', fileread c s f addr n =
        Outcome.ret (c.readi (s.files f).ip addr (wrap32 (s.files f).off) n) s' ∧
      (0 < c.readi (s.files f).ip addr (wrap32 (s.files f).off) n →
        s'.files = upd s.files f { s.files f with
          off := wrap32 ((s.files f).off +
            (c.readi (s.files f).ip addr (wrap32 (s.files f).off) n).toNat) }) ∧
      (c.readi (s.files f).ip addr (wrap32 (s.files f).off) n ≤ 0 → s'.files = s.files) ∧
      s'.trace = s.trace ++ [Event.ilock (s.files f).ip,
        Event.readi (s.files f).ip addr (wrap32 (s.files f).off) n
          (c.readi (s.files f).ip addr (wrap32 (s.files f).off) n),
        Event.iunlock (s.files f).ip] ∧
      s'.pipes = s.pipes ∧ s'.inodes = s.inodes := by
  unfold fileread
  simp only [hr, if_false, ht, emit_files, reduceCtorEq, or_self, if_true]
  by_cases hpos : c.readi (s.files f).ip addr (wrap32 (s.files f).off) n > 0
  · rw [if_pos hpos]
    refine ⟨_, rfl, fun _ => rfl, fun hle => ?_, by simp, rfl, rfl⟩
    omega
  · rw [if_neg hpos]
    refine ⟨_, rfl, fun h => absurd h hpos, fun _ => rfl, by simp, rfl, rfl⟩

/-- C13 (amended): for a readable inode handle with offset `o`, `fileread`
returns the value `r` that `readi` returned for the offset `o` (as a 32-bit
`uint`) and length `n`, between `ilock` and `iunlock`; when `r > 0` the offset
becomes `o + r` as a 32-bit `uint`, which is `o + r` itself whenever `o + r` is
below `2^32`, and when `r <= 0` it stays `o`; nothing else changes, so a short
read is returned as it is.  A readable handle whose kind is none of pipe, FIFO
and inode reaches `panic("fileread")`. -/
theorem fileread_inode (c : Config) (s : State) (f : Nat) (addr n : Int)
    (hr : (s.files f).readable ≠ 0) :
    ((s.files f).type = FdType.FD_INODE →
      ∃ s', fileread c s f addr n =
          Outcome.ret (c.readi (s.files f).ip addr (wrap32 (s.files f).off) n) s' ∧
        (0 < c.readi (s.files f).ip addr (wrap32 (s.files f).off) n →
          s'.files = upd s.files f { s.files f with
            off := wrap32 ((s.files f).off +
              (c.readi (s.files f).ip addr (wrap32 (s.files f).off) n).toNat) }) ∧
        (0 < c.readi (s.files f).ip addr (wrap32 (s.files f).off) n →
          (s.files f).off +
            (c.readi (s.files f).ip addr (wrap32 (s.files f).off) n).toNat < 4294967296 →
          s'.files = upd s.files f { s.files f with
            off := (s.files f).off +
              (c.readi (s.files f).ip addr (wrap32 (s.files f).off) n).toNat }) ∧
        (c.readi (s.files f).ip addr (wrap32 (s.files f).off) n ≤ 0 → s'.files = s.files) ∧
        s'.trace = s.trace ++ [Event.ilock (s.files f).ip,
          Event.readi (s.files f).ip addr (wrap32 (s.files f).off) n
            (c.readi (s.files f).ip addr (wrap32 (s.files f).off) n),
          Event.iunlock (s.files f).ip] ∧
        s'.pipes = s.pipes ∧ s'.inodes = s.inodes) ∧
    ((s.files f).off < 4294967296 → wrap32 (s.files f).off = (s.files f).off) ∧
    ((s.files f).type ≠ FdType.FD_PIPE → (s.files f).type ≠ FdType.FD_FIFO →
      (s.files f).type ≠ FdType.FD_INODE →
      fileread c s f addr n = Outcome.panic PanicMsg.fileread s) := by
  refine ⟨?_, wrap32_of_lt _, ?_⟩
  · intro ht
    obtain ⟨s', he, hpos, hle, htr, hp, hi⟩ := fileread_inode_eq c s f addr n hr ht
    refine ⟨s', he, hpos, ?_, hle, htr, hp, hi⟩
    intro h0 hlt
    rw [hpos h0, wrap32_of_lt _ hlt]
  · intro h1 h2 h3
    unfold fileread
    simp only [hr, if_false, h1, h2, h3, or_self]

/-- Witness for C13: a read of 100 bytes through an inode handle at offset 0. -/
theorem fileread_inode_witness :
    ∃ s', fileread cfg0 (st_inode 1) 0 0 100 = Outcome.ret 100 s' ∧
      s'.files = upd (st_inode 1).files 0 { (st_inode 1).files 0 with off := 100 } := by
  obtain ⟨s', h1, _, h2, _⟩ := (fileread_inode cfg0 (st_inode 1) 0 0 100 (by decide)).1 rfl
  exact ⟨s', h1, h2 (by decide) (by decide)⟩

/-- Counterexample to C13 as stated: a read of 100 bytes through a readable
inode handle at offset `2^32 - 1`, of which `readi` delivers all 100.  The claim
asks for the offset `2^32 - 1 + 100` afterwards; the 32-bit offset is 99. -/
theorem fileread_offset_wraps_cex :
    ∃ s', fileread cfg0 (st_inode_at 4294967295) 0 0 100 = Outcome.ret 100 s' ∧
      (s'.files 0).off = 99 ∧
      (s'.files 0).off ≠ ((st_inode_at 4294967295).files 0).off + 100 := by
  obtain ⟨s', h1, h2, _⟩ :=
    fileread_inode_eq cfg0 (st_inode_at 4294967295) 0 0 100 (by decide) rfl
  refine ⟨s', h1, ?_, ?_⟩
  · rw [h2 (by decide)]
    decide
  · rw [h2 (by decide)]
    decide

/-! ## filewrite: short writes, offsets and termination -/

/-- C14: for a writable inode handle and a positive `maxChunkBytes`, if the
chunks `0 .. j-1` are written in full, a chunk `j` exists and its `writei`
returns `r` with `0 < r < chunk size`, then `filewrite` with a loop budget of at
least `j+1` reaches `panic("short filewrite")`; the events end with the
`commit_trans` of that chunk, and the offset was advanced by `r` before, as a
32-bit `uint`: it is `o + j*max + r` whenever that is below `2^32`. -/
theorem filewrite_short_is_fatal (c : Config) (s : State) (f : Nat) (addr n : Int)
    (fuel j : Nat)
    (hw : (s.files f).writable ≠ 0) (ht : (s.files f).type = FdType.FD_INODE)
    (hmax : 0 < maxChunkBytes c) (hj : (j : Int) * maxChunkBytes c < n)
    (hok : chunks_ok c s f addr j)
    (hpos : 0 < chunk_result c s f addr n j)
    (hshort : chunk_result c s f addr n j < min (n - j * maxChunkBytes c) (maxChunkBytes c))
    (hfuel : j + 1 ≤ fuel) :
    ∃ s', filewrite c fuel s f addr n = Outcome.panic PanicMsg.short_filewrite s' ∧
      s'.trace = s.trace ++
        (first_chunks c (s.files f).ip addr (chunk_off c (s.files f).off) n j ++
          [Event.begin_trans, Event.ilock (s.files f).ip,
           Event.writei (s.files f).ip (addr + j * maxChunkBytes c)
            (chunk_off c (s.files f).off j)
            (min (n - j * maxChunkBytes c) (maxChunkBytes c)) (chunk_result c s f addr n j),
           Event.iunlock (s.files f).ip, Event.commit_trans]) ∧
      s'.files = upd s.files f
        { s.files f with off := wrap32 ((s.files f).off + j * (maxChunkBytes c).toNat +
            (chunk_result c s f addr n j).toNat) } ∧
      ((s.files f).off + j * (maxChunkBytes c).toNat +
          (chunk_result c s f addr n j).toNat < 4294967296 →
        s'.files = upd s.files f
          { s.files f with off := (s.files f).off + j * (maxChunkBytes c).toNat +
              (chunk_result c s f addr n j).toNat }) ∧
      s'.pipes = s.pipes ∧ s'.inodes = s.inodes := by
  obtain ⟨fuel', hfuel'⟩ : ∃ fuel', fuel = fuel' + 1 + j := ⟨fuel - (j + 1), by omega⟩
  obtain ⟨S, htr, hfiles, hpipes, hinodes, hrun⟩ :=
    filewrite_at_chunk c s f addr n hw ht hmax j hj hok fuel'
  have hnneg : ¬ chunk_result c s f addr n j < 0 := by omega
  have hne : chunk_result c s f addr n j ≠ min (n - j * maxChunkBytes c) (maxChunkBytes c) := by
    omega
  rw [if_neg hnneg, if_pos hne] at hrun
  rw [if_pos hpos, off_after_add] at hfiles
  refine ⟨S, by rw [hfuel']; exact hrun, htr, hfiles, ?_, hpipes, hinodes⟩
  intro hlt
  rw [hfiles, wrap32_of_lt _ hlt]

/-- Witness for C14: a write of 5 bytes of which `writei` takes only one. -/
theorem filewrite_short_is_fatal_witness :
    ∃ s', filewrite cfg_one 1 (st_inode 1) 0 0 5 = Outcome.panic PanicMsg.short_filewrite s' ∧
      (s'.files 0).off = 1 := by
  obtain ⟨s', h1, _, h2, _⟩ := filewrite_short_is_fatal cfg_one (st_inode 1) 0 0 5 1 0
    (by decide) rfl (by decide) (by decide) (fun q hq => by omega) (by decide) (by decide)
    (by decide)
  exact ⟨s', h1, by rw [h2]; decide⟩

/-! ## fileclose: the dispatch of the teardown -/

theorem fileclose_phase2_pipe (c : Config) (s : State) (ff : file)
    (ht : ff.type = FdType.FD_PIPE) :
    ∃ s', fileclose_phase2 c s ff = Outcome.ret () s' ∧
      s'.trace = s.trace ++ [Event.pipeclose ff.pipe ff.writable] ∧
      s'.files = s.files ∧ s'.inodes = s.inodes ∧
      s'.pipes = c.pipeclose ff.pipe ff.writable s.pipes := by
  unfold fileclose_phase2
  simp only [ht, reduceCtorEq, if_false, if_true]
  exact ⟨_, rfl, rfl, rfl, rfl, rfl⟩

theorem fileclose_phase2_inode (c : Config) (s : State) (ff : file)
    (ht : ff.type = FdType.FD_INODE) :
    ∃ s', fileclose_phase2 c s ff = Outcome.ret () s' ∧
      s'.trace = s.trace ++ [Event.begin_trans, Event.iput ff.ip, Event.commit_trans] ∧
      s'.files = s.files ∧ s'.inodes = s.inodes ∧ s'.pipes = s.pipes := by
  unfold fileclose_phase2
  simp only [ht, reduceCtorEq, if_false, if_true]
  exact ⟨_, rfl, by simp, rfl, rfl, rfl⟩

theorem fileclose_phase2_none (c : Config) (s : State) (ff : file)
    (ht : ff.type = FdType.FD_NONE) : fileclose_phase2 c s ff = Outcome.ret () s := by
  unfold fileclose_phase2
  simp only [ht, reduceCtorEq, if_false]

theorem transfer_sum_append (l1 l2 : List Event) :
    transfer_sum (l1 ++ l2) = transfer_sum l1 + transfer_sum l2 := by
  induction l1 with
  | nil => simp [transfer_sum]
  | cons e l ih =>
    cases e <;> simp [transfer_sum, ih] <;> omega

theorem transfer_sum_txn (ip : Nat) (addr : Int) (off : Nat) (n1 r : Int) :
    transfer_sum (txn_events ip addr off n1 r) = r.toNat := by
  simp [txn_events, transfer_sum]

theorem after_chunk_off (c : Config) (s : State) (f : Nat) (addr n : Int) (k : Nat) (i : Int)
    (hoff : (s.files f).off < 4294967296) :
    ((after_chunk c s f addr n k i).files f).off = wrap32 ((s.files f).off +
      (c.writei k (s.files f).ip (addr + i) (wrap32 (s.files f).off)
        (min (n - i) (maxChunkBytes c))).toNat) := by
  rw [after_chunk_files]
  split
  · simp
  · have : (c.writei k (s.files f).ip (addr + i) (wrap32 (s.files f).off)
        (min (n - i) (maxChunkBytes c))).toNat = 0 := by omega
    rw [this, Nat.add_zero, wrap32_of_lt _ hoff]

theorem after_chunk_other (c : Config) (s : State) (f : Nat) (addr n : Int) (k : Nat) (i : Int)
    (g : Nat) (hg : g ≠ f) : (after_chunk c s f addr n k i).files g = s.files g := by
  rw [after_chunk_files]
  split
  · exact upd_other _ _ _ _ hg
  · rfl

theorem filewrite_loop_offset (c : Config) (f : Nat) (addr n : Int) :
    ∀ (fuel k : Nat) (i : Int) (s s' : State), (s.files f).off < 4294967296 →
      (filewrite_loop c f addr n fuel k i s).final = some s' →
      ∃ evs, s'.trace = s.trace ++ evs ∧
        (s'.files f).off = wrap32 ((s.files f).off + transfer_sum evs) ∧
        (∀ g, g ≠ f → s'.files g = s.files g) := by
  intro fuel
  induction fuel with
  | zero =>
    intro k i s s' hoff hfin
    by_cases hi : i < n
    · simp [filewrite_loop, hi, Outcome.final] at hfin
    · rw [filewrite_loop_done c f addr n 0 k i s hi] at hfin
      simp only [Outcome.final, Option.some.injEq] at hfin
      subst hfin
      exact ⟨[], by simp, by simp [transfer_sum, wrap32_of_lt _ hoff], fun _ _ => rfl⟩
  | succ fuel ih =>
    intro k i s s' hoff hfin
    by_cases hi : i < n
    · rw [filewrite_loop_step c f addr n fuel k i s hi] at hfin
      have hS : ∃ evs, (after_chunk c s f addr n k i).trace = s.trace ++ evs ∧
          ((after_chunk c s f addr n k i).files f).off =
            wrap32 ((s.files f).off + transfer_sum evs) ∧
          (∀ g, g ≠ f → (after_chunk c s f addr n k i).files g = s.files g) :=
        ⟨_, after_chunk_trace c s f addr n k i,
          by rw [after_chunk_off c s f addr n k i hoff, transfer_sum_txn],
          fun g hg => after_chunk_other c s f addr n k i g hg⟩
      split at hfin
      · simp only [Outcome.final, Option.some.injEq] at hfin
        subst hfin
        exact hS
      · split at hfin
        · simp only [Outcome.final, Option.some.injEq] at hfin
          subst hfin
          exact hS
        · obtain ⟨evs1, h1, h2, h3⟩ := hS
          have hoffS : ((after_chunk c s f addr n k i).files f).off < 4294967296 := by
            rw [h2]
            exact wrap32_lt _
          obtain ⟨evs2, h4, h5, h6⟩ := ih _ _ _ _ hoffS hfin
          refine ⟨evs1 ++ evs2, ?_, ?_, ?_⟩
          · rw [h4, h1, List.append_assoc]
          · rw [h5, h2, transfer_sum_append, wrap32_add_left, Nat.add_assoc]
          · intro g hg
            rw [h6 g hg, h3 g hg]
    · rw [filewrite_loop_done c f addr n (fuel + 1) k i s hi] at hfin
      simp only [Outcome.final, Option.some.injEq] at hfin
      subst hfin
      exact ⟨[], by simp, by simp [transfer_sum, wrap32_of_lt _ hoff], fun _ _ => rfl⟩

/-- C16 (amended): for an inode handle whose offset `o` is a 32-bit value,
`fileread` always returns, and at the end of `fileread` and at every end of
`filewrite` (a return or a `panic`) the offset is `o` plus the sum of the
positive results that `readi` and `writei` returned during the call, as a
32-bit `uint`; whenever `o` plus that sum is below `2^32` the offset is exactly
`o` plus the sum, hence not smaller than before, and it is `o` when no
transfer returned a positive count; `filedup` and a `fileclose` that keeps the
slot leave the offset unchanged. -/
theorem inode_offset_monotone (c : Config) (s : State) (f : Nat)
    (ht : (s.files f).type = FdType.FD_INODE) (hoff : (s.files f).off < 4294967296) :
    (∀ addr n, ∃ r s' evs, fileread c s f addr n = Outcome.ret r s' ∧
      s'.trace = s.trace ++ evs ∧
      (s'.files f).off = wrap32 ((s.files f).off + transfer_sum evs) ∧
      ((s.files f).off + transfer_sum evs < 4294967296 →
        (s'.files f).off = (s.files f).off + transfer_sum evs ∧
        (s.files f).off ≤ (s'.files f).off)) ∧
    (∀ fuel addr n s', (filewrite c fuel s f addr n).final = some s' →
      ∃ evs, s'.trace = s.trace ++ evs ∧
        (s'.files f).off = wrap32 ((s.files f).off + transfer_sum evs) ∧
        ((s.files f).off + transfer_sum evs < 4294967296 →
          (s'.files f).off = (s.files f).off + transfer_sum evs ∧
          (s.files f).off ≤ (s'.files f).off)) ∧
    (1 ≤ (s.files f).ref →
      ∃ s', filedup s f = Outcome.ret f s' ∧ (s'.files f).off = (s.files f).off) ∧
    (1 ≤ (s.files f).ref → ¬ ((s.files f).ref = 1 ∨ should_delete s f) →
      ∃ s', fileclose c s f = Outcome.ret () s' ∧ (s'.files f).off = (s.files f).off) := by
  have hnowrap : ∀ (o' : Nat) (evs : List Event),
      o' = wrap32 ((s.files f).off + transfer_sum evs) →
      (s.files f).off + transfer_sum evs < 4294967296 →
      o' = (s.files f).off + transfer_sum evs ∧ (s.files f).off ≤ o' := by
    intro o' evs h1 h2
    rw [wrap32_of_lt _ h2] at h1
    exact ⟨h1, by omega⟩
  refine ⟨?_, ?_, ?_, ?_⟩
  · intro addr n
    by_cases hrd : (s.files f).readable = 0
    · have h0 : (s.files f).off = wrap32 ((s.files f).off + transfer_sum []) := by
        simp [transfer_sum, wrap32_of_lt _ hoff]
      exact ⟨_, s, [], (ebadf_read c s f addr n hrd), by simp, h0, hnowrap _ _ h0⟩
    · obtain ⟨s', he, hpos, hle, htr, _⟩ := fileread_inode_eq c s f addr n hrd ht
      have hsum : (s'.files f).off = wrap32 ((s.files f).off + transfer_sum
          [Event.ilock (s.files f).ip,
            Event.readi (s.files f).ip addr (wrap32 (s.files f).off) n
              (c.readi (s.files f).ip addr (wrap32 (s.files f).off) n),
            Event.iunlock (s.files f).ip]) := by
        by_cases hp : 0 < c.readi (s.files f).ip addr (wrap32 (s.files f).off) n
        · rw [hpos hp]
          simp [transfer_sum]
        · rw [hle (by omega)]
          have h0 : (c.readi (s.files f).ip addr (wrap32 (s.files f).off) n).toNat = 0 := by
            omega
          simp only [transfer_sum, h0, Nat.add_zero]
          exact (wrap32_of_lt _ hoff).symm
      exact ⟨_, s', _, he, htr, hsum, hnowrap _ _ hsum⟩
  · intro fuel addr n s' hfin
    by_cases hwr : (s.files f).writable = 0
    · unfold filewrite at hfin
      simp only [hwr, if_true, Outcome.final, Option.some.injEq] at hfin
      subst hfin
      have h0 : (s.files f).off = wrap32 ((s.files f).off + transfer_sum []) := by
        simp [transfer_sum, wrap32_of_lt _ hoff]
      exact ⟨[], by simp, h0, hnowrap _ _ h0⟩
    · rw [filewrite_inode c fuel s f addr n hwr ht] at hfin
      obtain ⟨evs, h1, h2, _⟩ := filewrite_loop_offset c f addr n fuel 0 0 s s' hoff hfin
      exact ⟨evs, h1, h2, hnowrap _ _ h2⟩
  · intro hr
    refine ⟨_, filedup_eq s f hr, ?_⟩
    simp [filedup_fifo_files]
  · intro hr hc
    refine ⟨_, fileclose_kept_eq c s f hr hc, ?_⟩
    rw [close_kept_files]
    simp

/-- Witness for C16: a read of 100 bytes through an inode handle at offset 0. -/
theorem inode_offset_monotone_witness :
    ∃ r s' evs, fileread cfg0 (st_inode 1) 0 0 100 = Outcome.ret r s' ∧
      s'.trace = (st_inode 1).trace ++ evs ∧
      (s'.files 0).off = wrap32 (((st_inode 1).files 0).off + transfer_sum evs) ∧
      (((st_inode 1).files 0).off + transfer_sum evs < 4294967296 →
        (s'.files 0).off = ((st_inode 1).files 0).off + transfer_sum evs ∧
        ((st_inode 1).files 0).off ≤ (s'.files 0).off) :=
  (inode_offset_monotone cfg0 (st_inode 1) 0 rfl (by decide)).1 0 100

/-- Counterexample to C16 as stated: a handle at offset `2^32 - 1` through which
100 bytes are read, or written in one chunk.  The call returns 100, the one
transfer of the call returned the positive count 100, and the offset ends at
99: it is smaller than before, and it is not the old offset plus 100. -/
theorem inode_offset_decreases_cex :
    (∃ s', fileread cfg0 (st_inode_at 4294967295) 0 0 100 = Outcome.ret 100 s' ∧
      (s'.files 0).off < ((st_inode_at 4294967295).files 0).off) ∧
    (∃ s', filewrite cfg0 1 (st_inode_at 4294967295) 0 0 100 = Outcome.ret 100 s' ∧
      s'.trace = [Event.begin_trans, Event.ilock 0, Event.writei 0 0 4294967295 100 100,
        Event.iunlock 0, Event.commit_trans] ∧
      transfer_sum s'.trace = 100 ∧
      (s'.files 0).off = 99 ∧
      (s'.files 0).off < ((st_inode_at 4294967295).files 0).off) := by
  constructor
  · obtain ⟨s', h1, h2, _⟩ :=
      fileread_inode_eq cfg0 (st_inode_at 4294967295) 0 0 100 (by decide) rfl
    refine ⟨s', h1, ?_⟩
    rw [h2 (by decide)]
    decide
  · obtain ⟨s', ht, hf, _, _, hr⟩ := filewrite_at_chunk cfg0 (st_inode_at 4294967295) 0 0 100
      (by decide) rfl (by decide) 0 (by decide) (fun q hq => by omega) 0
    have hres : chunk_result cfg0 (st_inode_at 4294967295) 0 0 100 0 = 100 := by decide
    have hmin : min ((100 : Int) - ((0 : Nat) : Int) * maxChunkBytes cfg0)
        (maxChunkBytes cfg0) = 100 := by decide
    rw [hres] at hr hf ht
    rw [hmin] at hr ht
    have htr : s'.trace = [Event.begin_trans, Event.ilock 0,
        Event.writei 0 0 4294967295 100 100, Event.iunlock 0, Event.commit_trans] := by
      rw [ht]
      rfl
    refine ⟨s', ?_, htr, ?_, ?_, ?_⟩
    · rw [hr]
      simp [filewrite_loop]
    · rw [htr]
      rfl
    · rw [hf]
      decide
    · rw [hf]
      decide

/-! ## fileclose: the order of locks and calls -/

theorem fileclose_phase2_events (c : Config) (s : State) (ff : file) :
    ∃ s' post, (fileclose_phase2 c s ff).final = some s' ∧ s'.trace = s.trace ++ post ∧
      ∀ e, e ∈ post → isPhase2Call e = true := by
  by_cases h1 : ff.type = FdType.FD_FIFO
  · cases hr : (s.inodes ff.ip).read_file with
    | none =>
      obtain ⟨s', he, htr, _⟩ := fileclose_phase2_fifo_null c s ff h1 hr
      refine ⟨s', _, by rw [he]; rfl, htr, ?_⟩
      intro e he
      simp only [List.mem_cons, List.mem_singleton, List.not_mem_nil, or_false] at he
      rcases he with he | he <;> subst he <;> rfl
    | some rf =>
      cases hw : (s.inodes ff.ip).write_file with
      | none =>
        obtain ⟨s', he, htr, _⟩ := fileclose_phase2_fifo_null_write c s ff rf h1 hr hw
        refine ⟨s', _, by rw [he]; rfl, htr, ?_⟩
        intro e he
        simp only [List.mem_cons, List.mem_singleton, List.not_mem_nil, or_false] at he
        rcases he with he | he <;> subst he <;> rfl
      | some wf =>
        refine ⟨_, [Event.pipeclose ff.pipe ff.writable, Event.ilock ff.ip,
          Event.iunlock ff.ip], by rw [fileclose_phase2_fifo c s ff rf wf h1 hr hw]; rfl, rfl, ?_⟩
        intro e he
        simp only [List.mem_cons, List.mem_singleton, List.not_mem_nil, or_false] at he
        rcases he with he | he | he <;> subst he <;> rfl
  · by_cases h2 : ff.type = FdType.FD_PIPE
    · obtain ⟨s', he, htr, _⟩ := fileclose_phase2_pipe c s ff h2
      refine ⟨s', _, by rw [he]; rfl, htr, ?_⟩
      intro e he
      simp only [List.mem_singleton] at he
      subst he
      rfl
    · by_cases h3 : ff.type = FdType.FD_INODE
      · obtain ⟨s', he, htr, _⟩ := fileclose_phase2_inode c s ff h3
        refine ⟨s', _, by rw [he]; rfl, htr, ?_⟩
        intro e he
        simp only [List.mem_cons, List.mem_singleton, List.not_mem_nil, or_false] at he
        rcases he with he | he | he <;> subst he <;> rfl
      · have h4 : ff.type = FdType.FD_NONE := by
          cases hty : ff.type <;> simp_all
        refine ⟨s, [], by rw [fileclose_phase2_none c s ff h4]; rfl, by simp, ?_⟩
        intro e he
        cases he

theorem wakeups_are_wakeups (s : State) (h : Nat) :
    ∀ e, e ∈ wakeups_of_close s h → isWakeup e = true := by
  unfold wakeups_of_close fileclose_counters
  intro e he
  split at he <;> split at he <;> simp at he <;> subst he <;> rfl

theorem fileclose_final_trace (c : Config) (s : State) (h : Nat) (hr : 1 ≤ (s.files h).ref) :
    ∃ s' post, (fileclose c s h).final = some s' ∧
      s'.trace = s.trace ++ (phase1_events s h ++ post) ∧
      (∀ e, e ∈ post → isPhase2Call e = true) ∧
      ((fileclose c s h = Outcome.ret () (close_kept s h)) ∨
        (s.files h).ref = 1 ∨ should_delete s h) := by
  by_cases hc : (s.files h).ref = 1 ∨ should_delete s h
  · obtain ⟨s', post, hfin, htr, hpost⟩ := fileclose_phase2_events c (close_freed s h)
      { s.files h with ref := (s.files h).ref - 1 }
    refine ⟨s', post, by rw [fileclose_freed_eq c s h hr hc]; exact hfin, ?_, hpost, Or.inr hc⟩
    rw [htr, close_freed_trace, List.append_assoc]
  · refine ⟨close_kept s h, [], by rw [fileclose_kept_eq c s h hr hc]; rfl, ?_,
      fun e he => absurd he (List.not_mem_nil e), Or.inl (fileclose_kept_eq c s h hr hc)⟩
    rw [close_kept_trace_eq]
    simp

/-- C17: every run of `fileclose` on a handle with `ref >= 1` ends (with a
return, or at a store through a null back-reference), and the events it issued
are: `acquire(&ftable.lock)`; then, only for a FIFO, `acquire(&p->lock)`, the
wakeups, `release(&p->lock)`; then `release(&ftable.lock)`; then calls of the
teardown only (`pipeclose`, `ilock`, `iunlock`, `begin_trans`, `iput`,
`commit_trans`).  So the table lock is taken once and released once, the pipe
lock is taken and released while the table lock is held, and every call of the
teardown comes after the release of the table lock. -/
theorem fileclose_lock_order (c : Config) (s : State) (h : Nat) (hr : 1 ≤ (s.files h).ref) :
    ∃ s' mid post, (fileclose c s h).final = some s' ∧
      s'.trace = s.trace ++
        ([Event.acquire_ftable] ++ mid ++ [Event.release_ftable] ++ post) ∧
      (mid = [] ∨ ∃ ws, mid = [Event.acquire_pipe (s.files h).pipe] ++ ws ++
          [Event.release_pipe (s.files h).pipe] ∧ ∀ e, e ∈ ws → isWakeup e = true) ∧
      (∀ e, e ∈ post → isPhase2Call e = true) ∧
      ([Event.acquire_ftable] ++ mid ++ [Event.release_ftable] ++ post).count
        Event.acquire_ftable = 1 ∧
      ([Event.acquire_ftable] ++ mid ++ [Event.release_ftable] ++ post).count
        Event.release_ftable = 1 ∧
      (∀ e, e ∈ [Event.acquire_ftable] ++ mid ++ [Event.release_ftable] →
        isPhase2Call e = false) := by
  obtain ⟨s', post, hfin, htr, hpost, _⟩ := fileclose_final_trace c s h hr
  have hmid : ∃ mid, phase1_events s h = [Event.acquire_ftable] ++ mid ++ [Event.release_ftable] ∧
      (mid = [] ∨ ∃ ws, mid = [Event.acquire_pipe (s.files h).pipe] ++ ws ++
          [Event.release_pipe (s.files h).pipe] ∧ ∀ e, e ∈ ws → isWakeup e = true) := by
    unfold phase1_events
    by_cases hf : (s.files h).type = FdType.FD_FIFO
    · rw [if_pos hf]
      exact ⟨_, rfl, Or.inr ⟨_, rfl, wakeups_are_wakeups s h⟩⟩
    · rw [if_neg hf]
      exact ⟨[], rfl, Or.inl rfl⟩
  obtain ⟨mid, hp1, hshape⟩ := hmid
  have hmid_no : ∀ e, e ∈ mid → e ≠ Event.acquire_ftable ∧ e ≠ Event.release_ftable ∧
      isPhase2Call e = false := by
    intro e he
    rcases hshape with hnil | ⟨ws, hws, hwk⟩
    · rw [hnil] at he
      cases he
    · rw [hws] at he
      simp only [List.mem_append, List.mem_singleton] at he
      rcases he with (he | he) | he
      · subst he
        exact ⟨by simp, by simp, rfl⟩
      · have := hwk e he
        cases e <;> simp_all [isWakeup, isPhase2Call]
      · subst he
        exact ⟨by simp, by simp, rfl⟩
  have hpost_no : ∀ e, e ∈ post → e ≠ Event.acquire_ftable ∧ e ≠ Event.release_ftable := by
    intro e he
    have := hpost e he
    cases e <;> simp_all [isPhase2Call]
  have hc1 : mid.count Event.acquire_ftable = 0 :=
    List.count_eq_zero.2 (fun hin => (hmid_no _ hin).1 rfl)
  have hc2 : mid.count Event.release_ftable = 0 :=
    List.count_eq_zero.2 (fun hin => (hmid_no _ hin).2.1 rfl)
  have hc3 : post.count Event.acquire_ftable = 0 :=
    List.count_eq_zero.2 (fun hin => (hpost_no _ hin).1 rfl)
  have hc4 : post.count Event.release_ftable = 0 :=
    List.count_eq_zero.2 (fun hin => (hpost_no _ hin).2 rfl)
  refine ⟨s', mid, post, hfin, ?_, hshape, hpost, ?_, ?_, ?_⟩
  · rw [htr, hp1]
  · simp only [List.count_append, hc1, hc3]
    simp [List.count_cons]
  · simp only [List.count_append, hc2, hc4]
    simp [List.count_cons]
  · intro e he
    simp only [List.mem_append, List.mem_singleton] at he
    rcases he with (he | he) | he
    · subst he; rfl
    · exact (hmid_no e he).2.2
    · subst he; rfl

/-- Witness for C17: the last close of the write end of a FIFO. -/
theorem fileclose_lock_order_witness :
    ∃ s' mid post, (fileclose cfg0 (st_fifo 1 0 1 1 1) 0).final = some s' ∧
      s'.trace = (st_fifo 1 0 1 1 1).trace ++
        ([Event.acquire_ftable] ++ mid ++ [Event.release_ftable] ++ post) ∧
      (∀ e, e ∈ post → isPhase2Call e = true) := by
  obtain ⟨s', mid, post, h1, h2, _, h3, _⟩ :=
    fileclose_lock_order cfg0 (st_fifo 1 0 1 1 1) 0 (by decide)
  exact ⟨s', mid, post, h1, h2, h3⟩

theorem dup_then_close_eq (c : Config) (s : State) (h : Nat) (hr : 1 ≤ (s.files h).ref) :
    (filedup s h).andThen (fun _ s1 => fileclose c s1 h) = fileclose c (dup_state s h) h := by
  rw [filedup_eq s h hr]
  rfl

theorem dup_state_files (s : State) (h : Nat) :
    (dup_state s h).files = upd s.files h { s.files h with ref := (s.files h).ref + 1 } := by
  simp [dup_state, filedup_fifo_files]

theorem dup_state_inodes (s : State) (h : Nat) : (dup_state s h).inodes = s.inodes := by
  simp [dup_state, filedup_fifo_inodes]

theorem dup_state_pipes (s : State) (h : Nat) (hf : (s.files h).type = FdType.FD_FIFO) :
    (dup_state s h).pipes = upd s.pipes (s.files h).pipe
      { readopen := (s.pipes (s.files h).pipe).readopen + (s.files h).readable,
        writeopen := (s.pipes (s.files h).pipe).writeopen + (s.files h).writable } := by
  unfold dup_state
  rw [emit_pipes, filedup_fifo_pipes_fifo _ _ (by simpa using hf)]
  simp

theorem dup_state_trace (s : State) (h : Nat) (hf : (s.files h).type = FdType.FD_FIFO) :
    (dup_state s h).trace = s.trace ++ [Event.acquire_ftable,
      Event.acquire_pipe (s.files h).pipe, Event.release_pipe (s.files h).pipe,
      Event.release_ftable] := by
  unfold dup_state filedup_fifo
  simp [hf]

theorem pipe_eq_of_fields (a b : pipe) (h1 : a.readopen = b.readopen)
    (h2 : a.writeopen = b.writeopen) : a = b := by
  cases a
  cases b
  simp only [pipe.mk.injEq]
  exact ⟨h1, h2⟩

theorem close_kept_pipes (s : State) (h : Nat) (hf : (s.files h).type = FdType.FD_FIFO) :
    (close_kept s h).pipes = upd s.pipes (s.files h).pipe (pipe_after_close s h) := by
  unfold close_kept
  simp only [emit_pipes, setFile_pipes]
  rw [fileclose_fifo_pipes _ _ (by simpa using hf)]
  rfl

theorem fileclose_phase2_fifo_starts (c : Config) (s : State) (ff : file)
    (ht : ff.type = FdType.FD_FIFO) :
    ∃ s' rest, (fileclose_phase2 c s ff).final = some s' ∧
      s'.trace = s.trace ++ Event.pipeclose ff.pipe ff.writable :: rest := by
  cases hr : (s.inodes ff.ip).read_file with
  | none =>
    obtain ⟨s', he, htr, _⟩ := fileclose_phase2_fifo_null c s ff ht hr
    exact ⟨s', _, by rw [he]; rfl, htr⟩
  | some rf =>
    cases hw : (s.inodes ff.ip).write_file with
    | none =>
      obtain ⟨s', he, htr, _⟩ := fileclose_phase2_fifo_null_write c s ff rf ht hr hw
      exact ⟨s', _, by rw [he]; rfl, htr⟩
    | some wf =>
      exact ⟨_, _, by rw [fileclose_phase2_fifo c s ff rf wf ht hr hw]; rfl, rfl⟩

theorem pipe_after_dup_close (s : State) (h : Nat) (hf : (s.files h).type = FdType.FD_FIFO)
    (hflags : ((s.files h).readable = 1 ∧ (s.files h).writable = 0) ∨
      ((s.files h).readable = 0 ∧ (s.files h).writable = 1))
    (hw : 0 ≤ (s.pipes (s.files h).pipe).writeopen)
    (hro : 0 ≤ (s.pipes (s.files h).pipe).readopen) :
    pipe_after_close (dup_state s h) h = s.pipes (s.files h).pipe := by
  have hfile : (dup_state s h).files h = { s.files h with ref := (s.files h).ref + 1 } := by
    rw [dup_state_files]; simp
  unfold pipe_after_close
  rw [hfile, dup_state_pipes s h hf]
  simp only [upd_same]
  rcases hflags with ⟨hrd, hwr⟩ | ⟨hrd, hwr⟩
  · obtain ⟨h1, h2, _⟩ := fileclose_counters_not_writable (s.files h).pipe (s.files h).writable
      { readopen := (s.pipes (s.files h).pipe).readopen + (s.files h).readable,
        writeopen := (s.pipes (s.files h).pipe).writeopen + (s.files h).writable } hwr
    apply pipe_eq_of_fields
    · rw [h1, hrd]
      simp only []
      omega
    · rw [h2, hwr]
      simp
  · obtain ⟨h1, h2, _⟩ := fileclose_counters_writable (s.files h).pipe (s.files h).writable
      { readopen := (s.pipes (s.files h).pipe).readopen + (s.files h).readable,
        writeopen := (s.pipes (s.files h).pipe).writeopen + (s.files h).writable }
      (by rw [hwr]; decide)
    apply pipe_eq_of_fields
    · rw [h2, hrd]
      simp
    · rw [h1, hwr]
      simp only []
      omega

/-- C19 (amended): for a FIFO handle `h` with `ref >= 1` that has exactly one of
the flags `readable`, `writable` equal to 1 and the other 0, on a pipe whose
counters are non-negative: if the counters are not both 0, `filedup(h)` followed
by `fileclose(h)` returns and leaves the file memory, the pipe counters and
the inodes as they were, with no `pipeclose` or `iput` call; if both counters
are 0, the `fileclose` finds them 0 after its update, resets the slot of `h`
(`ref` 0, kind `FD_NONE`) and starts the teardown with `pipeclose`. -/
theorem dup_close_identity (c : Config) (s : State) (h : Nat) (hr : 1 ≤ (s.files h).ref)
    (hf : (s.files h).type = FdType.FD_FIFO)
    (hflags : ((s.files h).readable = 1 ∧ (s.files h).writable = 0) ∨
      ((s.files h).readable = 0 ∧ (s.files h).writable = 1))
    (hw : 0 ≤ (s.pipes (s.files h).pipe).writeopen)
    (hro : 0 ≤ (s.pipes (s.files h).pipe).readopen) :
    (¬ ((s.pipes (s.files h).pipe).writeopen = 0 ∧ (s.pipes (s.files h).pipe).readopen = 0) →
      ∃ s', (filedup s h).andThen (fun _ s1 => fileclose c s1 h) = Outcome.ret () s' ∧
        s'.files = s.files ∧ s'.pipes = s.pipes ∧ s'.inodes = s.inodes ∧
        ∃ evs, s'.trace = s.trace ++ evs ∧ ∀ e, e ∈ evs → isTeardown e = false) ∧
    (((s.pipes (s.files h).pipe).writeopen = 0 ∧ (s.pipes (s.files h).pipe).readopen = 0) →
      ∃ s' evs, ((filedup s h).andThen (fun _ s1 => fileclose c s1 h)).final = some s' ∧
        (s'.files h).ref = 0 ∧ (s'.files h).type = FdType.FD_NONE ∧
        s'.trace = s.trace ++ evs ∧
        Event.pipeclose (s.files h).pipe (s.files h).writable ∈ evs) := by
  have hfile : (dup_state s h).files h = { s.files h with ref := (s.files h).ref + 1 } := by
    rw [dup_state_files]; simp
  have hpa := pipe_after_dup_close s h hf hflags hw hro
  have hdel : should_delete (dup_state s h) h ↔
      ((s.pipes (s.files h).pipe).writeopen = 0 ∧ (s.pipes (s.files h).pipe).readopen = 0) := by
    unfold should_delete
    rw [hpa, hfile]
    simp [hf]
  have hr2 : 1 ≤ ((dup_state s h).files h).ref := by rw [hfile]; simp only []; omega
  constructor
  · intro hnz
    have hkeep : ¬ (((dup_state s h).files h).ref = 1 ∨ should_delete (dup_state s h) h) := by
      rintro (h1 | h1)
      · rw [hfile] at h1
        simp only [] at h1
        omega
      · exact hnz (hdel.1 h1)
    refine ⟨close_kept (dup_state s h) h, ?_, ?_, ?_, ?_, ?_⟩
    · rw [dup_then_close_eq c s h hr, fileclose_kept_eq c _ h hr2 hkeep]
    · rw [close_kept_files, hfile, dup_state_files, upd_upd]
      have : ({ s.files h with ref := (s.files h).ref + 1 - 1 } : file) = s.files h := by
        have : (s.files h).ref + 1 - 1 = (s.files h).ref := by omega
        rw [this]
      simp only []
      rw [this]
      exact upd_self _ _
    · rw [close_kept_pipes _ _ (by rw [hfile]; exact hf), hpa, hfile, dup_state_pipes s h hf,
        upd_upd]
      exact upd_self _ _
    · rw [close_kept_inodes, dup_state_inodes]
    · obtain ⟨evs, hevs, hno⟩ := close_kept_trace (dup_state s h) h
      refine ⟨[Event.acquire_ftable, Event.acquire_pipe (s.files h).pipe,
        Event.release_pipe (s.files h).pipe, Event.release_ftable] ++ evs, ?_, ?_⟩
      · rw [hevs, dup_state_trace s h hf, List.append_assoc]
      · intro e he
        rcases List.mem_append.1 he with he | he
        · simp only [List.mem_cons, List.mem_singleton, List.not_mem_nil, or_false] at he
          rcases he with he | he | he | he <;> subst he <;> rfl
        · exact hno e he
  · intro hz
    have hc : ((dup_state s h).files h).ref = 1 ∨ should_delete (dup_state s h) h :=
      Or.inr (hdel.2 hz)
    obtain ⟨s', rest, hfin, htr⟩ := fileclose_phase2_fifo_starts c
      (close_freed (dup_state s h) h)
      { (dup_state s h).files h with ref := ((dup_state s h).files h).ref - 1 }
      (by rw [hfile]; exact hf)
    obtain ⟨s'', hfin2, hfr⟩ := fileclose_phase2_final c (close_freed (dup_state s h) h)
      { (dup_state s h).files h with ref := ((dup_state s h).files h).ref - 1 }
    rw [hfin] at hfin2
    simp only [Option.some.injEq] at hfin2
    subst hfin2
    have h0 : ((close_freed (dup_state s h) h).files h).ref = 0 := by
      rw [close_freed_files]; simp
    have hty : ((close_freed (dup_state s h) h).files h).type = FdType.FD_NONE := by
      rw [close_freed_files]; simp
    rw [hfile] at htr
    refine ⟨s', [Event.acquire_ftable, Event.acquire_pipe (s.files h).pipe,
        Event.release_pipe (s.files h).pipe, Event.release_ftable] ++
        (phase1_events (dup_state s h) h ++
          Event.pipeclose (s.files h).pipe (s.files h).writable :: rest),
      ?_, (hfr h).2 h0, by rw [(hfr h).1, hty], ?_, ?_⟩
    · rw [dup_then_close_eq c s h hr, fileclose_freed_eq c _ h hr2 hc]
      exact hfin
    · rw [htr, close_freed_trace, dup_state_trace s h hf, List.append_assoc, List.append_assoc]
    · simp

/-- Witness for C19: the only write end of a FIFO with `readopen = writeopen = 1`. -/
theorem dup_close_identity_witness :
    ∃ s', (filedup (st_fifo 1 0 1 1 1) 0).andThen (fun _ s1 => fileclose cfg0 s1 0) =
        Outcome.ret () s' ∧
      s'.files = (st_fifo 1 0 1 1 1).files ∧ s'.pipes = (st_fifo 1 0 1 1 1).pipes := by
  obtain ⟨s', h1, h2, h3, _⟩ := (dup_close_identity cfg0 (st_fifo 1 0 1 1 1) 0 (by decide) rfl
    (Or.inr ⟨rfl, rfl⟩) (by decide) (by decide)).1 (by decide)
  exact ⟨s', h1, h2, h3⟩

/-- Counterexample to C19 as stated.  First, a FIFO handle that is both readable
and writable, `ref = 1`, on a pipe with `readopen = writeopen = 2`: after
`filedup` and `fileclose` the pipe has `readopen = 3`.  Second, a read-only FIFO
handle, `ref = 1`, on a pipe with both counters 0: after `filedup` and
`fileclose` the slot is reset (`ref` 0, kind `FD_NONE`) and `pipeclose` was
called. -/
theorem dup_close_not_identity_cex :
    (∃ s', (filedup (st_fifo 1 1 1 2 2) 0).andThen (fun _ s1 => fileclose cfg0 s1 0) =
        Outcome.ret () s' ∧
      (s'.pipes 0).readopen = 3 ∧ ((st_fifo 1 1 1 2 2).pipes 0).readopen = 2) ∧
    (∃ s', (filedup (st_fifo 1 1 0 0 0) 0).andThen (fun _ s1 => fileclose cfg0 s1 0) =
        Outcome.ret () s' ∧
      (s'.files 0).ref = 0 ∧ (s'.files 0).type = FdType.FD_NONE ∧
      ((st_fifo 1 1 0 0 0).files 0).type = FdType.FD_FIFO ∧
      Event.pipeclose 0 0 ∈ s'.trace) := by
  constructor
  · rw [dup_then_close_eq cfg0 _ 0 (by decide),
      fileclose_kept_eq cfg0 (dup_state (st_fifo 1 1 1 2 2) 0) 0 (by decide) (by decide)]
    exact ⟨_, rfl, by decide, by decide⟩
  · rw [dup_then_close_eq cfg0 _ 0 (by decide),
      fileclose_freed_eq cfg0 (dup_state (st_fifo 1 1 0 0 0) 0) 0 (by decide)
        (Or.inr (by decide)),
      fileclose_phase2_fifo cfg0 _ _ 1 2 rfl rfl rfl]
    exact ⟨_, rfl, by decide, by decide, by decide, by decide⟩

/-! ## filewrite: termination of the chunk loop -/

theorem maxChunkBytes_pos_iff (c : Config) : 0 < maxChunkBytes c ↔ 6 ≤ c.LOGSIZE := by
  unfold maxChunkBytes
  rcases le_or_lt 0 (c.LOGSIZE - 1 - 1 - 2) with h | h
  · rw [Int.tdiv_eq_ediv h (by decide)]
    omega
  · have h1 : Int.tdiv (c.LOGSIZE - 1 - 1 - 2) 2 ≤ 0 := by
      have := Int.neg_tdiv (-(c.LOGSIZE - 1 - 1 - 2)) 2
      rw [neg_neg] at this
      rw [this, Int.tdiv_eq_ediv (by omega) (by decide)]
      omega
    omega

theorem num_chunks_step (c : Config) (n i : Int) (hmax : 0 < maxChunkBytes c) (hi : i < n) :
    num_chunks c (n - (i + min (n - i) (maxChunkBytes c))) + 1 ≤ num_chunks c (n - i) := by
  have hgoal : num_chunks c (n - (i + min (n - i) (maxChunkBytes c))) < num_chunks c (n - i) := by
    rw [lt_num_chunks_iff c (n - i) _ hmax]
    cases ha : num_chunks c (n - (i + min (n - i) (maxChunkBytes c))) with
    | zero =>
      simp
      omega
    | succ a =>
      have hlt : a < num_chunks c (n - (i + min (n - i) (maxChunkBytes c))) := by omega
      rw [lt_num_chunks_iff c _ a hmax] at hlt
      have hnn : 0 ≤ (a : Int) * maxChunkBytes c :=
        Int.mul_nonneg (Int.ofNat_nonneg a) (le_of_lt hmax)
      have hexp : ((a + 1 : Nat) : Int) * maxChunkBytes c =
          a * maxChunkBytes c + maxChunkBytes c := by
        push_cast
        ring
      rw [hexp]
      omega
  omega

theorem count_begin_txn (ip : Nat) (addr : Int) (off : Nat) (n1 r : Int) :
    (txn_events ip addr off n1 r).count Event.begin_trans = 1 := by
  simp [txn_events, List.count_cons]

theorem filewrite_loop_terminates (c : Config) (f : Nat) (addr n : Int)
    (hmax : 0 < maxChunkBytes c) :
    ∀ (fuel k : Nat) (i : Int) (s : State), num_chunks c (n - i) ≤ fuel →
      ∃ s' evs, (filewrite_loop c f addr n fuel k i s).final = some s' ∧
        s'.trace = s.trace ++ evs ∧
        evs.count Event.begin_trans ≤ num_chunks c (n - i) := by
  intro fuel
  induction fuel with
  | zero =>
    intro k i s hfuel
    have hi : ¬ i < n := by
      intro hi
      have := (lt_num_chunks_iff c (n - i) 0 hmax).2 (by simp; omega)
      omega
    rw [filewrite_loop_done c f addr n 0 k i s hi]
    exact ⟨s, [], rfl, by simp, by simp⟩
  | succ fuel ih =>
    intro k i s hfuel
    by_cases hi : i < n
    · have hone : 1 ≤ num_chunks c (n - i) :=
        (lt_num_chunks_iff c (n - i) 0 hmax).2 (by simp; omega)
      rw [filewrite_loop_step c f addr n fuel k i s hi]
      have hS : (after_chunk c s f addr n k i).trace = s.trace ++
          txn_events (s.files f).ip (addr + i) (wrap32 (s.files f).off) (min (n - i) (maxChunkBytes c))
            (c.writei k (s.files f).ip (addr + i) (wrap32 (s.files f).off)
              (min (n - i) (maxChunkBytes c))) := after_chunk_trace c s f addr n k i
      split
      · exact ⟨_, _, rfl, hS, by rw [count_begin_txn]; exact hone⟩
      · split
        · exact ⟨_, _, rfl, hS, by rw [count_begin_txn]; exact hone⟩
        · rename_i hnlt hneq
          have hreq : c.writei k (s.files f).ip (addr + i) (wrap32 (s.files f).off)
              (min (n - i) (maxChunkBytes c)) = min (n - i) (maxChunkBytes c) := by
            by_contra hne
            exact hneq hne
          rw [hreq]
          have hstep := num_chunks_step c n i hmax hi
          obtain ⟨s', evs, hfin, htr, hcnt⟩ := ih (k + 1) (i + min (n - i) (maxChunkBytes c))
            (after_chunk c s f addr n k i) (by omega)
          refine ⟨s', txn_events (s.files f).ip (addr + i) (wrap32 (s.files f).off)
            (min (n - i) (maxChunkBytes c))
            (c.writei k (s.files f).ip (addr + i) (wrap32 (s.files f).off)
              (min (n - i) (maxChunkBytes c))) ++ evs, hfin,
            by rw [htr, hS, List.append_assoc], ?_⟩
          rw [List.count_append, count_begin_txn]
          omega
    · rw [filewrite_loop_done c f addr n (fuel + 1) k i s hi]
      exact ⟨s, [], rfl, by simp, by simp⟩

theorem filewrite_loop_stuck (c : Config) (f : Nat) (addr n : Int)
    (hzero : maxChunkBytes c = 0) (hn : 0 < n) (hwi : ∀ k ip a o, c.writei k ip a o 0 = 0) :
    ∀ (fuel k : Nat) (s : State), filewrite_loop c f addr n fuel k 0 s = Outcome.diverge := by
  intro fuel
  induction fuel with
  | zero =>
    intro k s
    simp [filewrite_loop, hn]
  | succ fuel ih =>
    intro k s
    have hmin : min (n - 0) (maxChunkBytes c) = 0 := by omega
    rw [filewrite_loop_step c f addr n fuel k 0 s hn, hmin, hwi]
    simp only [lt_self_iff_false, if_false, ne_eq, not_true_eq_false, add_zero]
    exact ih (k + 1) _

/-- C20: for a writable inode handle, (1) `maxChunkBytes > 0` exactly when
`LOGSIZE >= 6`; (2) if `maxChunkBytes > 0`, then for every `n` and every
`writei` the loop of `filewrite` ends within `ceil(n/max)` iterations: with a
loop budget of at least that many the run ends in a return or a `panic`, and at
most `ceil(n/max)` transactions were begun; (3) every chunk requested then has
a size of at least 1, and an iteration either returns `-EIO` on a negative
result, or reaches `panic("short filewrite")`, or goes on with the count
transferred raised by that size; (4) if `maxChunkBytes = 0`, `n > 0` and
`writei` returns 0 for a request of length 0, the loop never ends, whatever
the loop budget; (5) if `maxChunkBytes < 0` no request has length 0. -/
theorem filewrite_terminates (c : Config) (s : State) (f : Nat) (addr n : Int)
    (hw : (s.files f).writable ≠ 0) (ht : (s.files f).type = FdType.FD_INODE) :
    (0 < maxChunkBytes c ↔ 6 ≤ c.LOGSIZE) ∧
    (0 < maxChunkBytes c → ∀ fuel, num_chunks c n ≤ fuel →
      ∃ s' evs, (filewrite c fuel s f addr n).final = some s' ∧
        s'.trace = s.trace ++ evs ∧
        evs.count Event.begin_trans ≤ num_chunks c n) ∧
    (0 < maxChunkBytes c → ∀ (fuel k : Nat) (i : Int) (S : State), i < n →
      1 ≤ min (n - i) (maxChunkBytes c) ∧
      (c.writei k (S.files f).ip (addr + i) (wrap32 (S.files f).off) (min (n - i) (maxChunkBytes c)) < 0 →
        filewrite_loop c f addr n (fuel + 1) k i S =
          Outcome.ret (-c.EIO_errno) (after_chunk c S f addr n k i)) ∧
      (0 ≤ c.writei k (S.files f).ip (addr + i) (wrap32 (S.files f).off)
          (min (n - i) (maxChunkBytes c)) →
        c.writei k (S.files f).ip (addr + i) (wrap32 (S.files f).off) (min (n - i) (maxChunkBytes c)) ≠
          min (n - i) (maxChunkBytes c) →
        filewrite_loop c f addr n (fuel + 1) k i S =
          Outcome.panic PanicMsg.short_filewrite (after_chunk c S f addr n k i)) ∧
      (c.writei k (S.files f).ip (addr + i) (wrap32 (S.files f).off) (min (n - i) (maxChunkBytes c)) =
          min (n - i) (maxChunkBytes c) →
        filewrite_loop c f addr n (fuel + 1) k i S =
          filewrite_loop c f addr n fuel (k + 1) (i + min (n - i) (maxChunkBytes c))
            (after_chunk c S f addr n k i))) ∧
    (maxChunkBytes c = 0 → 0 < n → (∀ k ip a o, c.writei k ip a o 0 = 0) →
      ∀ fuel, filewrite c fuel s f addr n = Outcome.diverge) ∧
    (maxChunkBytes c < 0 → ∀ i, i < n → min (n - i) (maxChunkBytes c) < 0) := by
  refine ⟨maxChunkBytes_pos_iff c, ?_, ?_, ?_, ?_⟩
  · intro hmax fuel hfuel
    rw [filewrite_inode c fuel s f addr n hw ht]
    have := filewrite_loop_terminates c f addr n hmax fuel 0 0 s (by simpa using hfuel)
    simpa using this
  · intro hmax fuel k i S hi
    have hsize : 1 ≤ min (n - i) (maxChunkBytes c) := by omega
    refine ⟨hsize, ?_, ?_, ?_⟩
    · intro hneg
      rw [filewrite_loop_step c f addr n fuel k i S hi, if_pos hneg]
    · intro hnn hne
      rw [filewrite_loop_step c f addr n fuel k i S hi, if_neg (by omega), if_pos hne]
    · intro heq
      rw [filewrite_loop_step c f addr n fuel k i S hi, if_neg (by omega),
        if_neg (by simp [heq]), heq]
  · intro hzero hn hwi fuel
    rw [filewrite_inode c fuel s f addr n hw ht]
    exact filewrite_loop_stuck c f addr n hzero hn hwi fuel 0 s
  · intro hneg i hi
    omega

/-- Witness for C20: with `LOGSIZE = 10` a write of 4000 bytes ends within three
iterations; with `LOGSIZE = 4` a write of 5 bytes whose `writei` returns its
request of length 0 never ends. -/
theorem filewrite_terminates_witness :
    (∃ s' evs, (filewrite cfg0 3 (st_inode 1) 0 0 4000).final = some s' ∧
      s'.trace = (st_inode 1).trace ++ evs ∧
      evs.count Event.begin_trans ≤ num_chunks cfg0 4000) ∧
    (∀ fuel, filewrite cfg_stuck fuel (st_inode 1) 0 0 5 = Outcome.diverge) :=
  ⟨(filewrite_terminates cfg0 (st_inode 1) 0 0 4000 (by decide) rfl).2.1 (by decide) 3
      (by decide),
    (filewrite_terminates cfg_stuck (st_inode 1) 0 0 5 (by decide) rfl).2.2.2.1 (by decide)
      (by decide) (fun _ _ _ _ => rfl)⟩

end Xv6
